import Mathlib

/-!
# Vault KMS plugin: the client wrapper of `vault/vaultClient.go`

A shallow embedding of `clientWrapper` and its methods.  Go strings are Lean strings
(sequences of characters); the Vault API library, the file system and the network are an
explicit parameter `VaultAPI`, and every call made through it is recorded in order, so that
"no login strategy is invoked" and "a single POST to path p" are statements about a list.
The standard-library functions `path.Clean`, `path.Join`, `strings.Contains` and
`strings.TrimSpace` are embedded from the Go sources.
-/

namespace Vault

/-! ## Go standard library: strings -/

/-- Go strings.HasPrefix on characters: does `s` start with `p`. -/
def startsWith : List Char → List Char → Bool
  | _, [] => true
  | [], _ :: _ => false
  | a :: s, b :: p => a == b && startsWith s p

/-- Search of strings.Contains on characters: some suffix of `s` starts with `substr`. -/
def containsChars (substr : List Char) : List Char → Bool
  | [] => startsWith [] substr
  | a :: s => startsWith (a :: s) substr || containsChars substr s

/-- Go strings.Contains(s, substr). -/
def Contains (s substr : String) : Bool :=
  containsChars substr.data s.data

/-- Go unicode.IsSpace: the white space characters of the Latin-1 range and of category Z. -/
def isSpace (c : Char) : Bool :=
  let n := c.toNat
  n == 0x09 || n == 0x0A || n == 0x0B || n == 0x0C || n == 0x0D || n == 0x20 ||
  n == 0x85 || n == 0xA0 || n == 0x1680 || (0x2000 ≤ n && n ≤ 0x200A) ||
  n == 0x2028 || n == 0x2029 || n == 0x202F || n == 0x205F || n == 0x3000

/-- Go strings.TrimSpace: leading and trailing white space removed. -/
def TrimSpace (s : String) : String :=
  String.mk ((s.data.dropWhile isSpace).reverse.dropWhile isSpace).reverse

/-- Go strings.Join(elems, sep). -/
def stringsJoin : List String → String → String
  | [], _ => ""
  | [e], _ => e
  | e :: e2 :: es, sep => e ++ sep ++ stringsJoin (e2 :: es) sep

/-! ## Go standard library: path.Clean and path.Join -/

/-- Lookahead test of path.Clean, `r+k == n || path[r+k] == '/'`, on the unread input. -/
def atBoundary (rest : List Char) : Bool :=
  rest.isEmpty || rest.head? == some '/'

/-- Inner loop of the `..` case: `for out.w > dotdot && out.index(out.w) != '/' { out.w-- }`,
started at write index `w`; the result is the final write index. -/
def backtrackLoop (out : List Char) (dotdot : Nat) : Nat → Nat
  | 0 => 0
  | w + 1 =>
    if w + 1 > dotdot && out.get? (w + 1) != some '/' then backtrackLoop out dotdot w
    else w + 1

/-- Main loop `for r < n` of path.Clean.  The list argument is the unread input `path[r:]`,
`out` is the buffer `buf[:w]` and `dotdot` the index where `..` must stop.  The flag is
true while the copy loop of the default case (`for ; r < n && path[r] != '/'; r++`) is
running; when that loop stops at a slash the outer loop skips the slash next, which is done
here in the same step. -/
def cleanLoop (rooted : Bool) : Bool → List Char → List Char → Nat → List Char
  | _, [], out, _ => out
  | true, c :: rest, out, dotdot =>
    if c = '/' then cleanLoop rooted false rest out dotdot
    else cleanLoop rooted true rest (out ++ [c]) dotdot
  | false, c :: rest, out, dotdot =>
    if c = '/' then
      -- empty path element
      cleanLoop rooted false rest out dotdot
    else if c = '.' ∧ atBoundary rest then
      -- . element
      cleanLoop rooted false rest out dotdot
    else
      match rest with
      | d :: rest2 =>
        if c = '.' ∧ d = '.' ∧ atBoundary rest2 then
          -- .. element: remove to last /
          if out.length > dotdot then
            -- can backtrack
            cleanLoop rooted false rest2
              (out.take (backtrackLoop out dotdot (out.length - 1))) dotdot
          else if !rooted then
            -- cannot backtrack, but not rooted, so append .. element
            cleanLoop rooted false rest2
              ((if out.length > 0 then out ++ ['/'] else out) ++ ['.', '.'])
              ((if out.length > 0 then out ++ ['/'] else out) ++ ['.', '.']).length
          else cleanLoop rooted false rest2 out dotdot
        else
          -- real path element: add slash if needed, copy element
          cleanLoop rooted true (d :: rest2)
            ((if rooted && out.length != 1 || !rooted && out.length != 0 then out ++ ['/']
              else out) ++ [c]) dotdot
      | [] =>
        cleanLoop rooted true []
          ((if rooted && out.length != 1 || !rooted && out.length != 0 then out ++ ['/']
            else out) ++ [c]) dotdot

/-- Go path.Clean on the characters of the path. -/
def cleanChars (path : List Char) : List Char :=
  if path.isEmpty then ['.']
  else
    let out :=
      if path.head? == some '/' then cleanLoop true false path.tail ['/'] 1
      else cleanLoop false false path [] 0
    -- Turn empty string into "."
    if out.length = 0 then ['.'] else out

/-- Go path.Clean. -/
def Clean (path : String) : String :=
  String.mk (cleanChars path.data)

/-- Go path.Join: the elements from the first non-empty one on are joined with slashes and
the result is cleaned; empty leading elements are ignored. -/
def Join : List String → String
  | [] => ""
  | e :: es => if e ≠ "" then Clean (stringsJoin (e :: es) "/") else Join es

/-! ## Errors -/

/-- Go error values seen by the package. -/
inductive GoError where
  /-- An error made outside the package (Vault API, JSON, file system), with its message. -/
  | lib (msg : String)
  /-- An error made by fmt.Errorf or errors.New in the package. -/
  | errorf (msg : String)
  /-- The package's `&forbiddenError{err: err}`. -/
  | forbidden (err : GoError)
  deriving DecidableEq

/-- The method Error() of an error value; for forbiddenError it is `"error %s"` of the
wrapped error. -/
def GoError.Error : GoError → String
  | .lib msg => msg
  | .errorf msg => msg
  | .forbidden err => "error " ++ err.Error

/-- Dynamic type test: is the error a `*forbiddenError`. -/
def GoError.isForbidden : GoError → Bool
  | .forbidden _ => true
  | _ => false

/-! ## Data of the Vault API -/

/-- A decoded JSON value held in a `map[string]interface{}`; the package inspects only its
dynamic type and, for strings, its content. -/
inductive Value where
  | null
  | bool (b : Bool)
  | number (n : String)
  | str (s : String)
  | array
  | object
  deriving DecidableEq

/-- The text printed by `%v` for `reflect.TypeOf(x)` where x is the result of a map lookup
(absent keys and JSON null both give the nil interface). -/
def typeName : Option Value → String
  | none => "<nil>"
  | some .null => "<nil>"
  | some (.bool _) => "bool"
  | some (.number _) => "json.Number"
  | some (.str _) => "string"
  | some .array => "[]interface \x7b\x7d"
  | some .object => "map[string]interface \x7b\x7d"

/-- The vaultapi.SecretAuth fields used. -/
structure SecretAuth where
  ClientToken : String
  deriving DecidableEq

/-- The vaultapi.Secret fields used: `Auth` may be nil, `Data` is a map. -/
structure Secret where
  Auth : Option SecretAuth
  Data : List (String × Value)
  deriving DecidableEq

/-- Map lookup `m[key]`. -/
def mapLookup (key : String) : List (String × Value) → Option Value
  | [] => none
  | (k, x) :: m => if k = key then some x else mapLookup key m

/-- The fields of EnvelopeConfig read by the client wrapper. -/
structure EnvelopeConfig where
  Address : String
  Token : String
  ClientCert : String
  ClientKey : String
  RoleID : String
  SecretID : String
  VaultCACert : String
  TLSServerName : String
  TransitPath : String
  AuthPath : String
  TokenFile : String
  deriving DecidableEq

/-- The vaultapi.TLSConfig built by newVaultClient. -/
structure TLSConfig where
  CACert : String
  ClientCert : String
  ClientKey : String
  TLSServerName : String
  deriving DecidableEq

/-- The state of a `*vaultapi.Client` that matters here: its address and its token. -/
structure Client where
  address : String
  token : String
  deriving DecidableEq

/-- The method SetToken of the Vault client. -/
def Client.SetToken (c : Client) (v : String) : Client :=
  { c with token := v }

/-- The argument `data interface{}` of request: the package passes a `map[string]string`,
which always serialises; any other value is represented by the error json.Marshal gives. -/
inductive Payload where
  | stringMap (m : List (String × String))
  | unsupported (marshalError : String)
  deriving DecidableEq

/-- The method SetJSONBody of a request: the error, if any. -/
def SetJSONBody : Payload → Option String
  | .stringMap _ => none
  | .unsupported e => some e

/-- A request as built by `client.NewRequest(method, path)` and `SetJSONBody`. -/
structure Request where
  Method : String
  URLPath : String
  ClientToken : String
  Body : Payload
  deriving DecidableEq

/-- The `*vaultapi.Response` fields used. -/
structure Response where
  StatusCode : Int
  Body : String
  deriving DecidableEq

/-- The pair `(resp, err)` returned by RawRequest; both may be non-nil. -/
structure RawResult where
  resp : Option Response
  err : Option String
  deriving DecidableEq

/-- Outside world: the Vault API library with the server behind it, and the file system.
Errors of the library are given by their message. -/
structure VaultAPI where
  /-- The call vaultConfig.ConfigureTLS(tlsConfig): the error, if any. -/
  ConfigureTLS : TLSConfig → Option String
  /-- The call vaultapi.NewClient for an address and a TLS setup. -/
  NewClient : String → TLSConfig → Except String Client
  /-- The call client.Logical().Write(path, data); the secret may be nil. -/
  Write : Client → String → Option (List (String × String)) → Except String (Option Secret)
  /-- The call ioutil.ReadFile(filename). -/
  ReadFile : String → Except String String
  /-- The call client.RawRequest(req). -/
  RawRequest : Request → RawResult
  /-- The call vaultapi.ParseSecret(body); the secret may be nil. -/
  ParseSecret : String → Except String (Option Secret)

/-- A call through the Vault API or to the file system. -/
inductive Call where
  | Write (client : Client) (path : String) (data : Option (List (String × String)))
  | ReadFile (filename : String)
  | RawRequest (req : Request)
  deriving DecidableEq

/-- The path (or file name) a call is addressed to. -/
def Call.target : Call → String
  | .Write _ path _ => path
  | .ReadFile filename => filename
  | .RawRequest req => req.URLPath

/-- Result of running a function of the package: the calls it made, in order, and the
values it returned; `none` when it panicked on a nil pointer. -/
structure Ret (α : Type) where
  calls : List Call
  val : Option α
  deriving DecidableEq

/-! ## The client wrapper -/

def defaultTransitPath : String := "transit"

def defaultAuthPath : String := "auth"

/-- Handle all communication with Vault server.  The field `client` is a pointer in Go:
`SetToken` on it is an update of the wrapper here. -/
structure clientWrapper where
  client : Client
  encryptPath : String
  decryptPath : String
  authPath : String
  deriving DecidableEq

/-- The statement `c.client.SetToken(token)`. -/
def clientWrapper.SetToken (c : clientWrapper) (token : String) : clientWrapper :=
  { c with client := c.client.SetToken token }

/-- Go newVaultClient: default configuration with the address and the TLS material of the
configuration. -/
def newVaultClient (v : VaultAPI) (config : EnvelopeConfig) : Except String Client :=
  let tlsConfig : TLSConfig :=
    { CACert := config.VaultCACert, ClientCert := config.ClientCert,
      ClientKey := config.ClientKey, TLSServerName := config.TLSServerName }
  match v.ConfigureTLS tlsConfig with
  | some err => .error err
  | none => v.NewClient config.Address tlsConfig

/-- Go clientWrapper.tlsToken. -/
def tlsToken (v : VaultAPI) (c : clientWrapper) (_config : EnvelopeConfig) :
    Ret (String × Option GoError) :=
  let p := "/" ++ Join [c.authPath, "cert", "login"]
  { calls := [Call.Write c.client p none]
    val :=
      match v.Write c.client p none with
      | .error err => some ("", some (.lib err))
      | .ok none => none
      | .ok (some resp) =>
        match resp.Auth with
        | none => none
        | some auth => some (auth.ClientToken, none) }

/-- Go clientWrapper.appRoleToken. -/
def appRoleToken (v : VaultAPI) (c : clientWrapper) (config : EnvelopeConfig) :
    Ret (String × Option GoError) :=
  let data := [("role_id", config.RoleID), ("secret_id", config.SecretID)]
  let p := "/" ++ Join [c.authPath, "approle", "login"]
  { calls := [Call.Write c.client p (some data)]
    val :=
      match v.Write c.client p (some data) with
      | .error err => some ("", some (.lib err))
      | .ok none => none
      | .ok (some resp) =>
        match resp.Auth with
        | none => none
        | some auth => some (auth.ClientToken, none) }

/-- Go clientWrapper.tokenFromFile. -/
def tokenFromFile (v : VaultAPI) (_c : clientWrapper) (config : EnvelopeConfig) :
    Ret (String × Option GoError) :=
  { calls := [Call.ReadFile config.TokenFile]
    val :=
      match v.ReadFile config.TokenFile with
      | .error err => some ("", some (.lib err))
      | .ok data => some (TrimSpace data, none) }

/-- Go clientWrapper.getInitialToken; the wrapper returned is the receiver after the call. -/
def getInitialToken (v : VaultAPI) (c : clientWrapper) (config : EnvelopeConfig) :
    Ret (clientWrapper × Option GoError) :=
  if config.ClientCert ≠ "" ∧ config.ClientKey ≠ "" then
    let r := tlsToken v c config
    { calls := r.calls
      val :=
        match r.val with
        | none => none
        | some (_, some err) =>
          some (c, some (.errorf ("rotating token through TLS auth backend: " ++ err.Error)))
        | some (token, none) => some (c.SetToken token, none) }
  else if config.RoleID ≠ "" then
    let r := appRoleToken v c config
    { calls := r.calls
      val :=
        match r.val with
        | none => none
        | some (_, some err) =>
          some (c, some (.errorf ("rotating token through app role backend: " ++ err.Error)))
        | some (token, none) => some (c.SetToken token, none) }
  else if config.TokenFile ≠ "" then
    let r := tokenFromFile v c config
    { calls := r.calls
      val :=
        match r.val with
        | none => none
        | some (_, some err) =>
          some (c, some (.errorf ("rotating token through token file: " ++ err.Error)))
        | some (token, none) => some (c.SetToken token, none) }
  else
    -- configuration has already been validated, flow should not reach here
    { calls := []
      val := some (c, some (.errorf "the Vault authentication configuration is invalid")) }

/-- Go clientWrapper.refreshTokenLocked: get token by login and set the value to the
client. -/
def refreshTokenLocked (v : VaultAPI) (c : clientWrapper) (config : EnvelopeConfig) :
    Ret (clientWrapper × Option GoError) :=
  getInitialToken v c config

/-- The value `wrapper` of newClientWrapper before the token is set: the transit path and
the auth path are configurable, with their defaults, and joined into the three paths. -/
def initWrapper (client : Client) (config : EnvelopeConfig) : clientWrapper :=
  let transit := if config.TransitPath ≠ "" then config.TransitPath else defaultTransitPath
  let auth := if config.AuthPath ≠ "" then config.AuthPath else defaultAuthPath
  { client := client
    encryptPath := Join ["v1", transit, "encrypt"]
    decryptPath := Join ["v1", transit, "decrypt"]
    authPath := Join [auth] }

/-- Go newClientWrapper: initialize a client wrapper for vault kms provider. -/
def newClientWrapper (v : VaultAPI) (config : EnvelopeConfig) :
    Ret (Option clientWrapper × Option GoError) :=
  match newVaultClient v config with
  | .error err => { calls := [], val := some (none, some (.lib err)) }
  | .ok client =>
    let wrapper := initWrapper client config
    if config.Token.length ≠ 0 then
      { calls := [], val := some (some (wrapper.SetToken config.Token), none) }
    else
      let r := getInitialToken v wrapper config
      { calls := r.calls
        val :=
          match r.val with
          | none => none
          | some (_, some err) => some (none, some err)
          | some (w, none) => some (some w, none) }

/-- The request built by the first two statements of request. -/
def postRequest (c : clientWrapper) (path : String) (data : Payload) : Request :=
  { Method := "POST", URLPath := "/" ++ path, ClientToken := c.client.token, Body := data }

/-- Go clientWrapper.request: this request check the response status code; if get code
403, it sets forbidden true. -/
def request (v : VaultAPI) (c : clientWrapper) (path : String) (data : Payload) :
    Ret (Option Secret × Option GoError) :=
  match SetJSONBody data with
  | some err => { calls := [], val := some (none, some (.lib err)) }
  | none =>
    let req := postRequest c path data
    let r := v.RawRequest req
    { calls := [Call.RawRequest req]
      val := some (
        match r.err with
        | some err =>
          if Contains err "Code: 403" then (none, some (.forbidden (.lib err)))
          else (none, some (.errorf ("error making POST request to path: " ++ path ++
            " , error: " ++ err)))
        | none =>
          match r.resp with
          | some resp =>
            if resp.StatusCode = 200 then
              match v.ParseSecret resp.Body with
              | .error err => (none, some (.lib err))
              | .ok secret => (secret, none)
            else (none, some (.errorf ("unexpected response code: " ++
              toString resp.StatusCode ++ " received for POST request to " ++ path)))
          | none => (none, some (.errorf ("no response received for POST request to " ++
              path)))) }

/-- Go clientWrapper.decryptLocked. -/
def decryptLocked (v : VaultAPI) (c : clientWrapper) (keyName cipher : String) :
    Ret (String × Option GoError) :=
  let data := Payload.stringMap [("ciphertext", cipher)]
  let r := request v c (Join [c.decryptPath, keyName]) data
  { calls := r.calls
    val :=
      match r.val with
      | none => none
      | some (_, some err) => some ("", some err)
      | some (none, none) => none
      | some (some resp, none) =>
        match mapLookup "plaintext" resp.Data with
        | some (.str result) => some (result, none)
        | x => some ("", some (.errorf ("failed type assertion of vault decrypt response type: "
            ++ typeName x ++ " to string"))) }

/-- Go clientWrapper.encryptLocked. -/
def encryptLocked (v : VaultAPI) (c : clientWrapper) (keyName plain : String) :
    Ret (String × Option GoError) :=
  let data := Payload.stringMap [("plaintext", plain)]
  let r := request v c (Join [c.encryptPath, keyName]) data
  { calls := r.calls
    val :=
      match r.val with
      | none => none
      | some (_, some err) => some ("", some err)
      | some (none, none) => none
      | some (some resp, none) =>
        match mapLookup "ciphertext" resp.Data with
        | some (.str result) => some (result, none)
        | x => some ("", some (.errorf ("failed type assertion of vault encrypt response type: "
            ++ typeName x ++ " to string"))) }

/-! ## Notions of the specification -/

/-- Authentication strategies of the specification. -/
inductive AuthStrategy where
  | CertificateLogin
  | AppRoleLogin
  | TokenFileRead
  deriving DecidableEq

/-- Priority order of the specification, steps 1 to 3 of its decision order: certificate
login when both ClientCert and ClientKey are given, else app-role login when RoleID is
given, else token-file read when TokenFile is given, else no strategy. -/
def selectStrategy (config : EnvelopeConfig) : Option AuthStrategy :=
  if config.ClientCert ≠ "" ∧ config.ClientKey ≠ "" then some .CertificateLogin
  else if config.RoleID ≠ "" then some .AppRoleLogin
  else if config.TokenFile ≠ "" then some .TokenFileRead
  else none

/-- The function of the package that executes a strategy. -/
def AuthStrategy.run (v : VaultAPI) (c : clientWrapper) (config : EnvelopeConfig) :
    AuthStrategy → Ret (String × Option GoError)
  | .CertificateLogin => tlsToken v c config
  | .AppRoleLogin => appRoleToken v c config
  | .TokenFileRead => tokenFromFile v c config

/-- The words by which an error of getInitialToken names the strategy that failed. -/
def AuthStrategy.backendName : AuthStrategy → String
  | .CertificateLogin => "TLS auth backend"
  | .AppRoleLogin => "app role backend"
  | .TokenFileRead => "token file"

/-- The certificate input set is populated: ClientCert and ClientKey are both given. -/
def certPopulated (config : EnvelopeConfig) : Bool :=
  config.ClientCert != "" && config.ClientKey != ""

/-- The app-role input set is populated: RoleID is given. -/
def appRolePopulated (config : EnvelopeConfig) : Bool :=
  config.RoleID != ""

/-- The token-file input set is populated. -/
def tokenFilePopulated (config : EnvelopeConfig) : Bool :=
  config.TokenFile != ""

/-- The static-token input set is populated. -/
def tokenPopulated (config : EnvelopeConfig) : Bool :=
  config.Token != ""

/-- Number of populated input sets among the four. -/
def populatedCount (config : EnvelopeConfig) : Nat :=
  (if certPopulated config then 1 else 0) + (if appRolePopulated config then 1 else 0) +
  (if tokenFilePopulated config then 1 else 0) + (if tokenPopulated config then 1 else 0)

/-- The configuration-invalid error of getInitialToken. -/
def configurationInvalid : GoError :=
  .errorf "the Vault authentication configuration is invalid"

/-! ## Concrete worlds used to instantiate the theorems -/

/-- The configuration with every field empty. -/
def emptyConfig : EnvelopeConfig :=
  { Address := "", Token := "", ClientCert := "", ClientKey := "", RoleID := "",
    SecretID := "", VaultCACert := "", TLSServerName := "", TransitPath := "",
    AuthPath := "", TokenFile := "" }

/-- A configuration with only a token file. -/
def tokenFileConfig : EnvelopeConfig :=
  { emptyConfig with TokenFile := "/var/run/token" }

/-- A configuration with the certificate set and the app-role set both populated. -/
def twoSetsConfig : EnvelopeConfig :=
  { emptyConfig with
    ClientCert := "c"
    ClientKey := "k"
    RoleID := "r"
    SecretID := "s" }

/-- A configuration with a static token and a client certificate. -/
def tokenAndCertConfig : EnvelopeConfig :=
  { emptyConfig with
    Token := "tok"
    ClientCert := "c"
    ClientKey := "k" }

/-- Body of a transit encrypt answer holding the ciphertext abc. -/
def cipherBody : String := "\x7b\"data\":\x7b\"ciphertext\":\"abc\"\x7d\x7d"

/-- Body of a transit decrypt answer holding the plaintext hello. -/
def plainBody : String := "\x7b\"data\":\x7b\"plaintext\":\"hello\"\x7d\x7d"

/-- Error text of the Vault API for a rejected token. -/
def deniedMessage : String :=
  "Error making API request.\n\nURL: POST\nCode: 403. Errors:\n\n* permission denied"

/-- A Vault server with one transit key `key1` that stores the pair hello / abc, accepts
every login, yields the token `fresh` on login, rejects requests bearing the token
`expired` with code 403, breaks the connection of the token `odd`, answers the key
`broken` with status 500 and unknown paths with status 404. -/
def demoVault : VaultAPI where
  ConfigureTLS _ := none
  NewClient address _ := .ok { address := address, token := "" }
  Write _ path _ :=
    if path = "/auth/cert/login" ∨ path = "/auth/approle/login" then
      .ok (some { Auth := some { ClientToken := "fresh" }, Data := [] })
    else .error "unsupported path"
  ReadFile filename :=
    if filename = "/var/run/token" then .ok "  fresh\n" else .error "no such file"
  RawRequest req :=
    if req.ClientToken = "expired" then { resp := none, err := some deniedMessage }
    else if req.ClientToken = "odd" then
      { resp := none, err := some "unexpected EOF after 403 bytes" }
    else if req.URLPath = "/v1/transit/encrypt/broken" then
      { resp := some { StatusCode := 500, Body := "" }, err := none }
    else if req.URLPath = "/v1/transit/encrypt/key1" ∧
        req.Body = .stringMap [("plaintext", "hello")] then
      { resp := some { StatusCode := 200, Body := cipherBody }, err := none }
    else if req.URLPath = "/v1/transit/decrypt/key1" ∧
        req.Body = .stringMap [("ciphertext", "abc")] then
      { resp := some { StatusCode := 200, Body := plainBody }, err := none }
    else { resp := some { StatusCode := 404, Body := "" }, err := none }
  ParseSecret body :=
    if body = cipherBody then .ok (some { Auth := none, Data := [("ciphertext", .str "abc")] })
    else if body = plainBody then
      .ok (some { Auth := none, Data := [("plaintext", .str "hello")] })
    else .error "invalid character"

/-- A wrapper with the default paths and the given token. -/
def demoWrapper (token : String) : clientWrapper :=
  { client := { address := "", token := token }
    encryptPath := "v1/transit/encrypt"
    decryptPath := "v1/transit/decrypt"
    authPath := "auth" }

/-! ## Cleaned paths -/

/-- An ordinary path element: not empty, without a slash, and neither `.` nor `..`. -/
def OrdinarySegment (s : List Char) : Prop :=
  s ≠ [] ∧ '/' ∉ s ∧ s ≠ ['.'] ∧ s ≠ ['.', '.']

instance : DecidablePred OrdinarySegment := fun s => by
  unfold OrdinarySegment
  infer_instance

/-- The buffer of a relative path after one more element is written: a slash is added
unless the buffer is empty. -/
def pushSegment (out s : List Char) : List Char :=
  if out = [] then s else out ++ '/' :: s

/-- The states (buffer, dotdot index) that path.Clean reaches on a relative path at the end
of an element: some `..` elements, up to the dotdot index, and then ordinary elements. -/
inductive CleanState : List Char → Nat → Prop where
  | nil : CleanState [] 0
  | dots (out : List Char) (dd : Nat) : CleanState out dd → out.length = dd →
      CleanState (pushSegment out ['.', '.']) (pushSegment out ['.', '.']).length
  | seg (out : List Char) (dd : Nat) (s : List Char) : CleanState out dd →
      OrdinarySegment s → CleanState (pushSegment out s) dd

/-! ## Substring search -/

theorem startsWith_append (p s : List Char) : startsWith (p ++ s) p = true := by
  induction p with
  | nil => cases s <;> rfl
  | cons a p ih => simp [startsWith, ih]

theorem containsChars_of_startsWith (p s : List Char) (h : startsWith s p = true) :
    containsChars p s = true := by
  cases s with
  | nil => simpa [containsChars] using h
  | cons a s => simp [containsChars, h]

theorem containsChars_append (a p b : List Char) :
    containsChars p (a ++ (p ++ b)) = true := by
  induction a with
  | nil => exact containsChars_of_startsWith _ _ (startsWith_append p b)
  | cons x a ih => simp [containsChars, ih]

/-- A string contains each piece it is concatenated from. -/
theorem Contains_mid (a p b : String) : Contains (a ++ p ++ b) p = true := by
  simp only [Contains, String.data_append, List.append_assoc]
  exact containsChars_append _ _ _

theorem Contains_right (a p : String) : Contains (a ++ p) p = true := by
  have h := Contains_mid a p ""
  simpa using h

/-! ## The dispatcher -/

/-- C1: request classifies the outcome of the transport in the order of the specification,
and its error is a forbiddenError exactly when the transport error bears "Code: 403". -/
theorem request_classification (v : VaultAPI) (c : clientWrapper) (p : String)
    (data : Payload) (hser : SetJSONBody data = none) :
    (request v c p data).calls = [Call.RawRequest (postRequest c p data)] ∧
    (∀ e, (v.RawRequest (postRequest c p data)).err = some e →
      Contains e "Code: 403" = true →
      (request v c p data).val = some (none, some (.forbidden (.lib e)))) ∧
    (∀ e, (v.RawRequest (postRequest c p data)).err = some e →
      Contains e "Code: 403" = false →
      (request v c p data).val = some (none, some (.errorf
        ("error making POST request to path: " ++ p ++ " , error: " ++ e))) ∧
      Contains ("error making POST request to path: " ++ p ++ " , error: " ++ e) p = true) ∧
    (∀ resp, (v.RawRequest (postRequest c p data)).err = none →
      (v.RawRequest (postRequest c p data)).resp = some resp → resp.StatusCode = 200 →
      (∀ secret, v.ParseSecret resp.Body = .ok secret →
        (request v c p data).val = some (secret, none)) ∧
      (∀ perr, v.ParseSecret resp.Body = .error perr →
        (request v c p data).val = some (none, some (.lib perr)))) ∧
    (∀ resp, (v.RawRequest (postRequest c p data)).err = none →
      (v.RawRequest (postRequest c p data)).resp = some resp → resp.StatusCode ≠ 200 →
      (request v c p data).val = some (none, some (.errorf
        ("unexpected response code: " ++ toString resp.StatusCode ++
          " received for POST request to " ++ p))) ∧
      Contains ("unexpected response code: " ++ toString resp.StatusCode ++
          " received for POST request to " ++ p) p = true ∧
      Contains ("unexpected response code: " ++ toString resp.StatusCode ++
          " received for POST request to " ++ p) (toString resp.StatusCode) = true) ∧
    ((v.RawRequest (postRequest c p data)).err = none →
      (v.RawRequest (postRequest c p data)).resp = none →
      (request v c p data).val = some (none, some (.errorf
        ("no response received for POST request to " ++ p))) ∧
      Contains ("no response received for POST request to " ++ p) p = true) ∧
    ((∃ s e, (request v c p data).val = some (s, some e) ∧ e.isForbidden = true) ↔
      ∃ e, (v.RawRequest (postRequest c p data)).err = some e ∧
        Contains e "Code: 403" = true) := by
  refine ⟨?_, ?_, ?_, ?_, ?_, ?_, ?_⟩
  · simp [request, hser]
  · intro e he hc
    simp [request, hser, he, hc]
  · intro e he hc
    refine ⟨?_, ?_⟩
    · simp [request, hser, he, hc]
    · rw [String.append_assoc]
      exact Contains_mid _ _ _
  · intro resp he hr hs
    refine ⟨?_, ?_⟩
    · intro secret hp
      simp [request, hser, he, hr, hs, hp]
    · intro perr hp
      simp [request, hser, he, hr, hs, hp]
  · intro resp he hr hs
    refine ⟨?_, Contains_right _ _, ?_⟩
    · simp [request, hser, he, hr, hs]
    · rw [String.append_assoc]
      exact Contains_mid _ _ _
  · intro he hr
    refine ⟨?_, Contains_right _ _⟩
    simp [request, hser, he, hr]
  · simp only [request, hser]
    cases he : (v.RawRequest (postRequest c p data)).err with
    | some e =>
      by_cases hc : Contains e "Code: 403" = true
      · constructor
        · intro _
          exact ⟨e, rfl, hc⟩
        · intro _
          exact ⟨none, .forbidden (.lib e), by simp [hc], rfl⟩
      · constructor
        · rintro ⟨s, e2, h1, h2⟩
          simp only [hc] at h1
          simp only [Bool.false_eq_true, if_false, Option.some.injEq, Prod.mk.injEq] at h1
          rw [← h1.2] at h2
          simp [GoError.isForbidden] at h2
        · rintro ⟨e2, h1, h2⟩
          simp only [Option.some.injEq] at h1
          rw [h1] at hc
          exact absurd h2 hc
    | none =>
      constructor
      · rintro ⟨s, e2, h1, h2⟩
        exfalso
        cases hr : (v.RawRequest (postRequest c p data)).resp with
        | none =>
          simp only [hr, Option.some.injEq, Prod.mk.injEq] at h1
          rw [← h1.2] at h2
          simp [GoError.isForbidden] at h2
        | some resp =>
          simp only [hr] at h1
          by_cases hs : resp.StatusCode = 200
          · cases hp : v.ParseSecret resp.Body with
            | error perr =>
              simp only [hs, hp, if_true, Option.some.injEq, Prod.mk.injEq] at h1
              rw [← h1.2] at h2
              simp [GoError.isForbidden] at h2
            | ok secret =>
              simp [hs, hp] at h1
          · simp only [hs, if_false, Option.some.injEq, Prod.mk.injEq] at h1
            rw [← h1.2] at h2
            simp [GoError.isForbidden] at h2
      · rintro ⟨e2, h1, _⟩
        simp at h1

/-- Instance of C1: a transport error with "Code: 403" gives a forbiddenError; a transport
error with "403" but without the marker, and a response with status 500, give plain errors
that name the path. -/
theorem request_classification_witness :
    SetJSONBody (.stringMap [("plaintext", "hello")]) = none ∧
    (request demoVault (demoWrapper "expired") "v1/transit/encrypt/key1"
      (.stringMap [("plaintext", "hello")])).val =
      some (none, some (.forbidden (.lib deniedMessage))) ∧
    (request demoVault (demoWrapper "odd") "v1/transit/encrypt/key1"
      (.stringMap [("plaintext", "hello")])).val =
      some (none, some (.errorf ("error making POST request to path: " ++
        "v1/transit/encrypt/key1" ++ " , error: " ++ "unexpected EOF after 403 bytes"))) ∧
    (request demoVault (demoWrapper "tok") "v1/transit/encrypt/broken"
      (.stringMap [("plaintext", "hello")])).val =
      some (none, some (.errorf ("unexpected response code: " ++ toString (500 : Int) ++
        " received for POST request to " ++ "v1/transit/encrypt/broken"))) :=
  ⟨rfl,
    (request_classification demoVault (demoWrapper "expired") "v1/transit/encrypt/key1"
      (.stringMap [("plaintext", "hello")]) rfl).2.1 deniedMessage (by decide) (by decide),
    ((request_classification demoVault (demoWrapper "odd") "v1/transit/encrypt/key1"
      (.stringMap [("plaintext", "hello")]) rfl).2.2.1 "unexpected EOF after 403 bytes"
      (by decide) (by decide)).1,
    ((request_classification demoVault (demoWrapper "tok") "v1/transit/encrypt/broken"
      (.stringMap [("plaintext", "hello")]) rfl).2.2.2.2.1 { StatusCode := 500, Body := "" }
      (by decide) (by decide) (by decide)).1⟩

/-! ## Encrypt and decrypt -/

/-- C4: encryptLocked returns exactly the string found under "ciphertext" in the data of the
secret the dispatcher returned, hands a dispatcher error on unchanged, and fails with the
type-assertion error and the empty string when the field is missing or not a string;
decryptLocked does the same with "plaintext". -/
theorem encryptLocked_decryptLocked_result (v : VaultAPI) (c : clientWrapper)
    (keyName input : String) :
    ((∀ s, (encryptLocked v c keyName input).val = some (s, none) ↔
        ∃ secret, (request v c (Join [c.encryptPath, keyName])
            (.stringMap [("plaintext", input)])).val = some (some secret, none) ∧
          mapLookup "ciphertext" secret.Data = some (.str s)) ∧
      (∀ x err, (request v c (Join [c.encryptPath, keyName])
            (.stringMap [("plaintext", input)])).val = some (x, some err) →
        (encryptLocked v c keyName input).val = some ("", some err)) ∧
      (∀ secret, (request v c (Join [c.encryptPath, keyName])
            (.stringMap [("plaintext", input)])).val = some (some secret, none) →
        (∀ s, mapLookup "ciphertext" secret.Data ≠ some (.str s)) →
        (encryptLocked v c keyName input).val = some ("", some (.errorf
          ("failed type assertion of vault encrypt response type: " ++
            typeName (mapLookup "ciphertext" secret.Data) ++ " to string"))))) ∧
    ((∀ s, (decryptLocked v c keyName input).val = some (s, none) ↔
        ∃ secret, (request v c (Join [c.decryptPath, keyName])
            (.stringMap [("ciphertext", input)])).val = some (some secret, none) ∧
          mapLookup "plaintext" secret.Data = some (.str s)) ∧
      (∀ x err, (request v c (Join [c.decryptPath, keyName])
            (.stringMap [("ciphertext", input)])).val = some (x, some err) →
        (decryptLocked v c keyName input).val = some ("", some err)) ∧
      (∀ secret, (request v c (Join [c.decryptPath, keyName])
            (.stringMap [("ciphertext", input)])).val = some (some secret, none) →
        (∀ s, mapLookup "plaintext" secret.Data ≠ some (.str s)) →
        (decryptLocked v c keyName input).val = some ("", some (.errorf
          ("failed type assertion of vault decrypt response type: " ++
            typeName (mapLookup "plaintext" secret.Data) ++ " to string"))))) := by
  refine ⟨⟨?_, ?_, ?_⟩, ⟨?_, ?_, ?_⟩⟩
  · intro s
    simp only [encryptLocked]
    rcases hr : (request v c (Join [c.encryptPath, keyName])
        (.stringMap [("plaintext", input)])).val with _ | ⟨x, e⟩
    · simp
    · cases e with
      | some err => simp
      | none =>
        cases x with
        | none => simp
        | some secret =>
          rcases hl : mapLookup "ciphertext" secret.Data with _ | y
          · simp [hl]
          · cases y <;> simp [hl]
  · intro x err hr
    simp [encryptLocked, hr]
  · intro secret hr hne
    simp only [encryptLocked, hr]
  · intro s
    simp only [decryptLocked]
    rcases hr : (request v c (Join [c.decryptPath, keyName])
        (.stringMap [("ciphertext", input)])).val with _ | ⟨x, e⟩
    · simp
    · cases e with
      | some err => simp
      | none =>
        cases x with
        | none => simp
        | some secret =>
          rcases hl : mapLookup "plaintext" secret.Data with _ | y
          · simp [hl]
          · cases y <;> simp [hl]
  · intro x err hr
    simp [decryptLocked, hr]
  · intro secret hr hne
    simp only [decryptLocked, hr]

/-- Instance of C4 from the specification: a 200 response with the body
`{"data":{"ciphertext":"abc"}}` to Encrypt("key1","hello") yields exactly "abc". -/
theorem encryptLocked_decryptLocked_result_witness :
    (encryptLocked demoVault (demoWrapper "t") "key1" "hello").val = some ("abc", none) :=
  ((encryptLocked_decryptLocked_result demoVault (demoWrapper "t") "key1" "hello").1.1
    "abc").mpr ⟨{ Auth := none, Data := [("ciphertext", .str "abc")] }, by decide, by decide⟩

/-- C9: against a backend that answers the encrypt request for k and p with status 200 and
the ciphertext ct, and the decrypt request for k and ct with status 200 and the plaintext
p, encryptLocked returns ct and decryptLocked returns p, both without error. -/
theorem encrypt_decrypt_roundtrip (v : VaultAPI) (c : clientWrapper) (k p ct : String)
    (body1 body2 : String) (s1 s2 : Secret)
    (henc : v.RawRequest (postRequest c (Join [c.encryptPath, k])
        (.stringMap [("plaintext", p)])) =
      { resp := some { StatusCode := 200, Body := body1 }, err := none })
    (hp1 : v.ParseSecret body1 = .ok (some s1))
    (hd1 : mapLookup "ciphertext" s1.Data = some (.str ct))
    (hdec : v.RawRequest (postRequest c (Join [c.decryptPath, k])
        (.stringMap [("ciphertext", ct)])) =
      { resp := some { StatusCode := 200, Body := body2 }, err := none })
    (hp2 : v.ParseSecret body2 = .ok (some s2))
    (hd2 : mapLookup "plaintext" s2.Data = some (.str p)) :
    (encryptLocked v c k p).val = some (ct, none) ∧
    (decryptLocked v c k ct).val = some (p, none) := by
  constructor
  · simp [encryptLocked, request, SetJSONBody, henc, hp1, hd1]
  · simp [decryptLocked, request, SetJSONBody, hdec, hp2, hd2]

/-- Instance of C9: the pair hello / abc stored by the demonstration backend. -/
theorem encrypt_decrypt_roundtrip_witness :
    (encryptLocked demoVault (demoWrapper "t") "key1" "hello").val = some ("abc", none) ∧
    (decryptLocked demoVault (demoWrapper "t") "key1" "abc").val = some ("hello", none) :=
  encrypt_decrypt_roundtrip demoVault (demoWrapper "t") "key1" "hello" "abc"
    cipherBody plainBody
    { Auth := none, Data := [("ciphertext", .str "abc")] }
    { Auth := none, Data := [("plaintext", .str "hello")] }
    (by decide) rfl (by decide) (by decide) rfl (by decide)

/-! ## Token acquisition -/

theorem length_eq_zero_iff (s : String) : s.length = 0 ↔ s = "" := by
  cases s with
  | mk l =>
    constructor
    · intro h
      have : l = [] := List.length_eq_zero.mp h
      subst this
      rfl
    · intro h
      rw [h]
      rfl

theorem run_calls_ne_nil (v : VaultAPI) (c : clientWrapper) (config : EnvelopeConfig)
    (s : AuthStrategy) : (s.run v c config).calls ≠ [] := by
  cases s <;> simp [AuthStrategy.run, tlsToken, appRoleToken, tokenFromFile]

theorem getInitialToken_of_select (v : VaultAPI) (c : clientWrapper) (config : EnvelopeConfig)
    (s : AuthStrategy) (hs : selectStrategy config = some s) :
    (getInitialToken v c config).calls = (s.run v c config).calls ∧
    (getInitialToken v c config).val =
      match (s.run v c config).val with
      | none => none
      | some (_, some err) =>
        some (c, some (.errorf ("rotating token through " ++ s.backendName ++ ": " ++
          err.Error)))
      | some (token, none) => some (c.SetToken token, none) := by
  unfold selectStrategy at hs
  unfold getInitialToken
  by_cases h1 : config.ClientCert ≠ "" ∧ config.ClientKey ≠ ""
  · rw [if_pos h1] at hs
    rw [if_pos h1]
    cases hs
    exact ⟨rfl, rfl⟩
  · rw [if_neg h1] at hs
    rw [if_neg h1]
    by_cases h2 : config.RoleID ≠ ""
    · rw [if_pos h2] at hs
      rw [if_pos h2]
      cases hs
      exact ⟨rfl, rfl⟩
    · rw [if_neg h2] at hs
      rw [if_neg h2]
      by_cases h3 : config.TokenFile ≠ ""
      · rw [if_pos h3] at hs
        rw [if_pos h3]
        cases hs
        exact ⟨rfl, rfl⟩
      · rw [if_neg h3] at hs
        cases hs

theorem getInitialToken_of_select_none (v : VaultAPI) (c : clientWrapper)
    (config : EnvelopeConfig) (hs : selectStrategy config = none) :
    getInitialToken v c config = { calls := [], val := some (c, some configurationInvalid) } := by
  unfold selectStrategy at hs
  unfold getInitialToken
  by_cases h1 : config.ClientCert ≠ "" ∧ config.ClientKey ≠ ""
  · rw [if_pos h1] at hs
    cases hs
  · rw [if_neg h1] at hs
    rw [if_neg h1]
    by_cases h2 : config.RoleID ≠ ""
    · rw [if_pos h2] at hs
      cases hs
    · rw [if_neg h2] at hs
      rw [if_neg h2]
      by_cases h3 : config.TokenFile ≠ ""
      · rw [if_pos h3] at hs
        cases hs
      · rw [if_neg h3]
        rfl

/-- C2: getInitialToken, and with it refreshTokenLocked, runs the strategy chosen by the
priority order certificate, app role, token file, a function of the configuration alone,
and without a match it runs none and fails with the configuration-invalid error; with
exactly one of the three input sets populated the choice is that set's strategy. -/
theorem getInitialToken_selects (v : VaultAPI) (c : clientWrapper) (config : EnvelopeConfig) :
    refreshTokenLocked v c config = getInitialToken v c config ∧
    (∀ s, selectStrategy config = some s →
      (getInitialToken v c config).calls = (s.run v c config).calls ∧
      (getInitialToken v c config).val =
        match (s.run v c config).val with
        | none => none
        | some (_, some err) =>
          some (c, some (.errorf ("rotating token through " ++ s.backendName ++ ": " ++
            err.Error)))
        | some (token, none) => some (c.SetToken token, none)) ∧
    (selectStrategy config = none →
      getInitialToken v c config =
        { calls := [], val := some (c, some configurationInvalid) }) ∧
    (config.ClientCert ≠ "" ∧ config.ClientKey ≠ "" →
      selectStrategy config = some .CertificateLogin) ∧
    (¬(config.ClientCert ≠ "" ∧ config.ClientKey ≠ "") → config.RoleID ≠ "" →
      selectStrategy config = some .AppRoleLogin) ∧
    (¬(config.ClientCert ≠ "" ∧ config.ClientKey ≠ "") → config.RoleID = "" →
      config.TokenFile ≠ "" → selectStrategy config = some .TokenFileRead) ∧
    (¬(config.ClientCert ≠ "" ∧ config.ClientKey ≠ "") → config.RoleID = "" →
      config.TokenFile = "" → selectStrategy config = none) ∧
    (certPopulated config = true → appRolePopulated config = false →
      tokenFilePopulated config = false → selectStrategy config = some .CertificateLogin) ∧
    (certPopulated config = false → appRolePopulated config = true →
      tokenFilePopulated config = false → selectStrategy config = some .AppRoleLogin) ∧
    (certPopulated config = false → appRolePopulated config = false →
      tokenFilePopulated config = true → selectStrategy config = some .TokenFileRead) := by
  refine ⟨rfl, fun s hs => getInitialToken_of_select v c config s hs,
    getInitialToken_of_select_none v c config, ?_, ?_, ?_, ?_, ?_, ?_, ?_⟩
  · intro h
    simp [selectStrategy, h]
  · intro h1 h2
    simp only [selectStrategy, if_neg h1, if_pos h2]
  · intro h1 h2 h3
    simp [selectStrategy, if_neg h1, h2, h3]
  · intro h1 h2 h3
    simp [selectStrategy, if_neg h1, h2, h3]
  · intro h1 _ _
    simp only [certPopulated, Bool.and_eq_true, bne_iff_ne] at h1
    simp [selectStrategy, h1]
  · intro h1 h2 _
    have h1' : ¬(config.ClientCert ≠ "" ∧ config.ClientKey ≠ "") := by
      intro h
      simp [certPopulated, h] at h1
    simp only [appRolePopulated, bne_iff_ne] at h2
    simp only [selectStrategy, if_neg h1', if_pos h2]
  · intro h1 h2 h3
    have h1' : ¬(config.ClientCert ≠ "" ∧ config.ClientKey ≠ "") := by
      intro h
      simp [certPopulated, h] at h1
    have h2' : config.RoleID = "" := by
      simpa [appRolePopulated] using h2
    simp only [tokenFilePopulated, bne_iff_ne] at h3
    simp [selectStrategy, if_neg h1', h2', h3]

/-- Instance of C2: a configuration with only a token file selects the token-file read. -/
theorem getInitialToken_selects_witness :
    selectStrategy tokenFileConfig = some .TokenFileRead ∧
    (getInitialToken demoVault (demoWrapper "") tokenFileConfig).calls
      = [Call.ReadFile "/var/run/token"] :=
  ⟨(getInitialToken_selects demoVault (demoWrapper "")
      tokenFileConfig).2.2.2.2.2.2.2.2.2
      (by decide) (by decide) (by decide),
   ((getInitialToken_selects demoVault (demoWrapper "")
      tokenFileConfig).2.1 .TokenFileRead (by decide)).1⟩

/-! ## Refresh and construction -/

/-- C5: refreshTokenLocked runs the selected strategy again; a token t it returns replaces
the stored credential and no error is returned, after which an Encrypt that the backend
refused with 403 under the old credential is sent with t and succeeds when the backend
accepts t; a failure of the strategy is returned as an error whose message holds the
message of the cause and the name of the strategy. -/
theorem refreshTokenLocked_overwrites (v : VaultAPI) (c : clientWrapper)
    (config : EnvelopeConfig) :
    (∀ s t, selectStrategy config = some s → (s.run v c config).val = some (t, none) →
      (refreshTokenLocked v c config).val = some (c.SetToken t, none) ∧
      (c.SetToken t).client.token = t ∧
      (∀ k p e, (v.RawRequest (postRequest c (Join [c.encryptPath, k])
            (.stringMap [("plaintext", p)]))).err = some e →
          Contains e "Code: 403" = true →
          (encryptLocked v c k p).val = some ("", some (.forbidden (.lib e)))) ∧
      (∀ k p body secret ct,
          v.RawRequest (postRequest (c.SetToken t) (Join [c.encryptPath, k])
            (.stringMap [("plaintext", p)])) =
            { resp := some { StatusCode := 200, Body := body }, err := none } →
          v.ParseSecret body = .ok (some secret) →
          mapLookup "ciphertext" secret.Data = some (.str ct) →
          (encryptLocked v (c.SetToken t) k p).calls =
            [Call.RawRequest
              { Method := "POST"
                URLPath := "/" ++ Join [c.encryptPath, k]
                ClientToken := t
                Body := .stringMap [("plaintext", p)] }] ∧
          (encryptLocked v (c.SetToken t) k p).val = some (ct, none))) ∧
    (∀ s x err, selectStrategy config = some s →
      (s.run v c config).val = some (x, some err) →
      (refreshTokenLocked v c config).val = some (c, some (.errorf
        ("rotating token through " ++ s.backendName ++ ": " ++ err.Error))) ∧
      Contains ("rotating token through " ++ s.backendName ++ ": " ++ err.Error)
        err.Error = true ∧
      Contains ("rotating token through " ++ s.backendName ++ ": " ++ err.Error)
        s.backendName = true) := by
  constructor
  · intro s t hs hrun
    refine ⟨?_, rfl, ?_, ?_⟩
    · have h := (getInitialToken_of_select v c config s hs).2
      rw [hrun] at h
      exact h
    · intro k p e he hc
      simp [encryptLocked, request, SetJSONBody, he, hc]
    · intro k p body secret ct hreq hp hd
      have hpath : (c.SetToken t).encryptPath = c.encryptPath := rfl
      constructor
      · simp [encryptLocked, request, SetJSONBody, postRequest, hpath]
        rfl
      · simp [encryptLocked, request, SetJSONBody, hpath, hreq, hp, hd]
  · intro s x err hs hrun
    refine ⟨?_, Contains_right _ _, ?_⟩
    · have h := (getInitialToken_of_select v c config s hs).2
      rw [hrun] at h
      exact h
    · rw [String.append_assoc]
      exact Contains_mid _ _ _

/-- Instance of C5: the demonstration backend refuses the token `expired` with 403; the
token file holds `fresh`, and after the refresh the same Encrypt succeeds. -/
theorem refreshTokenLocked_overwrites_witness :
    (encryptLocked demoVault (demoWrapper "expired") "key1" "hello").val =
      some ("", some (.forbidden (.lib deniedMessage))) ∧
    (refreshTokenLocked demoVault (demoWrapper "expired")
      tokenFileConfig).val =
      some (demoWrapper "fresh", none) ∧
    (encryptLocked demoVault (demoWrapper "fresh") "key1" "hello").val = some ("abc", none) :=
  have h := (refreshTokenLocked_overwrites demoVault (demoWrapper "expired")
    tokenFileConfig).1 .TokenFileRead "fresh"
    (by decide) (by decide)
  ⟨h.2.2.1 "key1" "hello" deniedMessage (by decide) (by decide), h.1,
    (h.2.2.2 "key1" "hello" cipherBody
      { Auth := none, Data := [("ciphertext", .str "abc")] } "abc"
      (by decide) rfl (by decide)).2⟩

/-- Against C3 as stated: with the certificate set and the app-role set both populated,
newClientWrapper logs in with the certificate and returns a client. -/
theorem newClientWrapper_accepts_two_sets :
    populatedCount twoSetsConfig = 2 ∧
    newClientWrapper demoVault twoSetsConfig =
      { calls := [Call.Write { address := "", token := "" } "/auth/cert/login" none]
        val := some (some { client := { address := "", token := "fresh" }
                            encryptPath := "v1/transit/encrypt"
                            decryptPath := "v1/transit/decrypt"
                            authPath := "auth" }, none) } := by
  decide

theorem populatedCount_eq_zero (config : EnvelopeConfig) (h : populatedCount config = 0) :
    ¬(config.ClientCert ≠ "" ∧ config.ClientKey ≠ "") ∧ config.RoleID = "" ∧
    config.TokenFile = "" ∧ config.Token = "" := by
  unfold populatedCount at h
  have h1 : certPopulated config = false := by
    cases hc : certPopulated config
    · rfl
    · rw [hc] at h
      simp at h
  have h2 : appRolePopulated config = false := by
    cases hc : appRolePopulated config
    · rfl
    · rw [hc] at h
      simp at h
  have h3 : tokenFilePopulated config = false := by
    cases hc : tokenFilePopulated config
    · rfl
    · rw [hc] at h
      simp at h
  have h4 : tokenPopulated config = false := by
    cases hc : tokenPopulated config
    · rfl
    · rw [hc] at h
      simp at h
  refine ⟨?_, ?_, ?_, ?_⟩
  · intro hcc
    simp [certPopulated, hcc] at h1
  · simpa [appRolePopulated] using h2
  · simpa [tokenFilePopulated] using h3
  · simpa [tokenPopulated] using h4

/-- C3, amended: with none of the four input sets populated, newClientWrapper produces no
client and makes no call; its error is the configuration-invalid error when the Vault
client could be built, and otherwise the error of building it. -/
theorem newClientWrapper_rejects_empty (v : VaultAPI) (config : EnvelopeConfig)
    (h : populatedCount config = 0) :
    (newClientWrapper v config).calls = [] ∧
    (∀ client, newVaultClient v config = .ok client →
      (newClientWrapper v config).val = some (none, some configurationInvalid)) ∧
    (∀ err, newVaultClient v config = .error err →
      (newClientWrapper v config).val = some (none, some (.lib err))) := by
  obtain ⟨h1, h2, h3, h4⟩ := populatedCount_eq_zero config h
  have hsel : selectStrategy config = none := by
    simp [selectStrategy, if_neg h1, h2, h3]
  have hlen : config.Token.length = 0 := (length_eq_zero_iff _).mpr h4
  refine ⟨?_, ?_, ?_⟩
  · unfold newClientWrapper
    cases hc : newVaultClient v config with
    | error err => rfl
    | ok client =>
      simp [hlen, getInitialToken_of_select_none v _ config hsel]
  · intro client hc
    simp [newClientWrapper, hc, hlen, getInitialToken_of_select_none v _ config hsel,
      configurationInvalid]
  · intro err hc
    simp [newClientWrapper, hc]

/-- Instance of C3 as amended: the empty configuration. -/
theorem newClientWrapper_rejects_empty_witness :
    populatedCount emptyConfig = 0 ∧
    (newClientWrapper demoVault emptyConfig).calls = [] ∧
    (newClientWrapper demoVault emptyConfig).val = some (none, some configurationInvalid) :=
  ⟨by decide, (newClientWrapper_rejects_empty demoVault emptyConfig (by decide)).1,
    (newClientWrapper_rejects_empty demoVault emptyConfig (by decide)).2.1
      { address := "", token := "" } rfl⟩

/-- Against C8 as stated: with a static token and a certificate, the static token is stored
and no login is made, although the certificate step matches and its login would give
`fresh`. -/
theorem static_token_beats_certificate :
    selectStrategy tokenAndCertConfig =
      some .CertificateLogin ∧
    (tlsToken demoVault (demoWrapper "") tokenAndCertConfig).val = some ("fresh", none) ∧
    newClientWrapper demoVault tokenAndCertConfig =
      { calls := []
        val := some (some { client := { address := "", token := "tok" }
                            encryptPath := "v1/transit/encrypt"
                            decryptPath := "v1/transit/decrypt"
                            authPath := "auth" }, none) } := by
  decide

/-- C8, amended: at construction the static token is the first step: when the Vault client
can be built, the token is stored and no strategy is invoked exactly when Token is
non-empty, whatever the other inputs; with an empty Token the selected strategy runs and
the token it returns is stored. -/
theorem static_token_first (v : VaultAPI) (config : EnvelopeConfig) (client : Client)
    (hc : newVaultClient v config = .ok client) :
    (config.Token ≠ "" →
      newClientWrapper v config =
        { calls := []
          val := some (some ((initWrapper client config).SetToken config.Token), none) }) ∧
    ((∃ w, newClientWrapper v config = { calls := [], val := some (some w, none) } ∧
        w.client.token = config.Token) ↔ config.Token ≠ "") ∧
    (∀ s t, config.Token = "" → selectStrategy config = some s →
      (s.run v (initWrapper client config) config).val = some (t, none) →
      (newClientWrapper v config).calls = (s.run v (initWrapper client config) config).calls ∧
      (newClientWrapper v config).val =
        some (some ((initWrapper client config).SetToken t), none)) := by
  have hpos : config.Token ≠ "" →
      newClientWrapper v config =
        { calls := []
          val := some (some ((initWrapper client config).SetToken config.Token), none) } := by
    intro ht
    have hlen : config.Token.length ≠ 0 := fun h => ht ((length_eq_zero_iff _).mp h)
    simp [newClientWrapper, hc, hlen]
  refine ⟨hpos, ?_, ?_⟩
  · constructor
    · rintro ⟨w, hw, _⟩ ht
      have hlen : config.Token.length = 0 := (length_eq_zero_iff _).mpr ht
      cases hsel : selectStrategy config with
      | none =>
        have h := getInitialToken_of_select_none v (initWrapper client config) config hsel
        simp [newClientWrapper, hc, hlen, h] at hw
      | some s =>
        have h := (getInitialToken_of_select v (initWrapper client config) config s hsel).1
        have hne := run_calls_ne_nil v (initWrapper client config) config s
        have hcalls : (newClientWrapper v config).calls =
            (getInitialToken v (initWrapper client config) config).calls := by
          simp [newClientWrapper, hc, hlen]
        rw [hw, h] at hcalls
        exact hne hcalls.symm
    · intro ht
      exact ⟨_, hpos ht, rfl⟩
  · intro s t ht hsel hrun
    have hlen : config.Token.length = 0 := (length_eq_zero_iff _).mpr ht
    have h := getInitialToken_of_select v (initWrapper client config) config s hsel
    rw [hrun] at h
    constructor
    · simp [newClientWrapper, hc, hlen, h.1]
    · simp [newClientWrapper, hc, hlen, h.2]

/-- Instance of C8 as amended: a static token given together with a certificate. -/
theorem static_token_first_witness :
    newVaultClient demoVault tokenAndCertConfig = .ok { address := "", token := "" } ∧
    ∃ w, newClientWrapper demoVault tokenAndCertConfig =
        { calls := [], val := some (some w, none) } ∧
      w.client.token = "tok" :=
  ⟨rfl, ((static_token_first demoVault tokenAndCertConfig { address := "", token := "" }
    rfl).2.1).mpr (by decide)⟩

/-! ## path.Clean: one step of the loop -/

theorem atBoundary_append_slash (xs zs : List Char) :
    atBoundary (xs ++ '/' :: zs) = (xs.isEmpty || xs.head? == some '/') := by
  cases xs <;> simp [atBoundary]

theorem cleanLoop_nil (rooted m : Bool) (out : List Char) (dd : Nat) :
    cleanLoop rooted m [] out dd = out := by
  cases m <;> rfl

theorem cleanLoop_slash (rooted m : Bool) (ys out : List Char) (dd : Nat) :
    cleanLoop rooted m ('/' :: ys) out dd = cleanLoop rooted false ys out dd := by
  cases m <;> cases ys <;> simp [cleanLoop]

theorem cleanLoop_copy (rooted : Bool) (c : Char) (ys out : List Char) (dd : Nat)
    (hc : c ≠ '/') :
    cleanLoop rooted true (c :: ys) out dd = cleanLoop rooted true ys (out ++ [c]) dd := by
  cases ys <;> simp [cleanLoop, hc]

/-- Unfolding of cleanLoop at the start of a path element. -/
theorem cleanLoop_false_cons (rooted : Bool) (c : Char) (rest out : List Char) (dd : Nat) :
    cleanLoop rooted false (c :: rest) out dd =
      if c = '/' then cleanLoop rooted false rest out dd
      else if c = '.' ∧ atBoundary rest then cleanLoop rooted false rest out dd
      else if c = '.' ∧ rest.head? = some '.' ∧ atBoundary rest.tail then
        if out.length > dd then
          cleanLoop rooted false rest.tail
            (out.take (backtrackLoop out dd (out.length - 1))) dd
        else if !rooted then
          cleanLoop rooted false rest.tail
            ((if out.length > 0 then out ++ ['/'] else out) ++ ['.', '.'])
            ((if out.length > 0 then out ++ ['/'] else out) ++ ['.', '.']).length
        else cleanLoop rooted false rest.tail out dd
      else
        cleanLoop rooted true rest
          ((if rooted && out.length != 1 || !rooted && out.length != 0 then out ++ ['/']
            else out) ++ [c]) dd := by
  cases rest with
  | nil => simp [cleanLoop, atBoundary]
  | cons d rest2 =>
    conv_lhs => rw [cleanLoop]
    simp only [List.head?_cons, List.tail_cons, Option.some.injEq]

/-! ## path.Clean: doubled slashes -/

theorem cleanLoop_double_slash_aux (rooted : Bool) (ys : List Char) :
    ∀ (n : Nat) (xs : List Char), xs.length ≤ n → ∀ (m : Bool) (out : List Char) (dd : Nat),
      cleanLoop rooted m (xs ++ '/' :: '/' :: ys) out dd =
        cleanLoop rooted m (xs ++ '/' :: ys) out dd := by
  intro n
  induction n with
  | zero =>
    intro xs hx m out dd
    have : xs = [] := List.length_eq_zero.mp (Nat.le_zero.mp hx)
    subst this
    simp only [List.nil_append, cleanLoop_slash]
  | succ n ih =>
    intro xs hx m out dd
    match xs, hx with
    | [], _ => simp only [List.nil_append, cleanLoop_slash]
    | c :: xs1, hx =>
      have h1 : xs1.length ≤ n := by simpa using hx
      cases m with
      | true =>
        by_cases hc : c = '/'
        · subst hc
          simp only [List.cons_append, cleanLoop_slash]
          exact ih xs1 h1 _ _ _
        · simp only [List.cons_append, cleanLoop_copy _ _ _ _ _ hc]
          exact ih xs1 h1 _ _ _
      | false =>
        have e1 := ih xs1 h1
        rw [List.cons_append, List.cons_append, cleanLoop_false_cons, cleanLoop_false_cons]
        match xs1, h1, e1 with
        | [], _, e1 =>
          simp only [List.nil_append] at e1
          simp [atBoundary, e1, cleanLoop_slash]
        | d :: xs2, h1, e1 =>
          have h2 : xs2.length ≤ n := by
            simp only [List.length_cons] at h1
            omega
          have e2 := ih xs2 h2
          have b2 := atBoundary_append_slash xs2 ('/' :: ys)
          have b2' := atBoundary_append_slash xs2 ys
          have b1 := atBoundary_append_slash (d :: xs2) ('/' :: ys)
          have b1' := atBoundary_append_slash (d :: xs2) ys
          simp only [List.cons_append] at b1 b1' e1
          simp only [List.cons_append, List.head?_cons, List.tail_cons, b1, b1', b2, b2', e1, e2]

theorem cleanLoop_double_slash (rooted m : Bool) (xs ys out : List Char) (dd : Nat) :
    cleanLoop rooted m (xs ++ '/' :: '/' :: ys) out dd =
      cleanLoop rooted m (xs ++ '/' :: ys) out dd :=
  cleanLoop_double_slash_aux rooted ys xs.length xs (Nat.le_refl _) m out dd

/-! ## Paths of the wrapper -/

theorem cleanChars_v1 (xs : List Char) :
    cleanChars ('v' :: '1' :: '/' :: xs) =
      if (cleanLoop false false xs ['v', '1'] 0).length = 0 then ['.']
      else cleanLoop false false xs ['v', '1'] 0 := by
  have h1 : cleanLoop false false ('v' :: '1' :: '/' :: xs) [] 0 =
      cleanLoop false false xs ['v', '1'] 0 := by
    rw [cleanLoop_false_cons]
    simp only [show ¬('v' = '/') by decide, show ¬('v' = '.') by decide, if_false, false_and]
    rw [cleanLoop_copy _ _ _ _ _ (by decide), cleanLoop_slash]
    rfl
  simp only [cleanChars, h1]
  simp

theorem Join_v1 (x s : String) :
    Join ["v1", x, s] =
      String.mk (if (cleanLoop false false (x.data ++ '/' :: s.data) ['v', '1'] 0).length = 0
        then ['.'] else cleanLoop false false (x.data ++ '/' :: s.data) ['v', '1'] 0) := by
  have h : ("v1" ++ "/" ++ (x ++ "/" ++ s)).data =
      'v' :: '1' :: '/' :: (x.data ++ '/' :: s.data) := by
    simp [String.data_append]
  simp only [Join, stringsJoin, Clean, h, cleanChars_v1]
  simp

/-- After the element "v1", path.Join ignores a leading and a trailing slash of the next
element. -/
theorem Join_v1_slashes (t s : String) :
    Join ["v1", "/" ++ t, s] = Join ["v1", t, s] ∧
    Join ["v1", t ++ "/", s] = Join ["v1", t, s] ∧
    Join ["v1", "/" ++ t ++ "/", s] = Join ["v1", t, s] := by
  have d1 : ("/" ++ t).data = '/' :: t.data := by
    simp [String.data_append]
  have d2 : (t ++ "/").data = t.data ++ ['/'] := by
    simp [String.data_append]
  have d3 : ("/" ++ t ++ "/").data = '/' :: (t.data ++ ['/']) := by
    simp [String.data_append]
  refine ⟨?_, ?_, ?_⟩
  · simp only [Join_v1, d1, List.cons_append, cleanLoop_slash]
  · simp only [Join_v1, d2, List.append_assoc, List.singleton_append, cleanLoop_double_slash]
  · simp only [Join_v1, d3, List.cons_append, List.append_assoc, List.singleton_append,
      List.nil_append, cleanLoop_slash, cleanLoop_double_slash]

theorem getInitialToken_paths (v : VaultAPI) (c w : clientWrapper) (config : EnvelopeConfig)
    (e : Option GoError) (h : (getInitialToken v c config).val = some (w, e)) :
    w.encryptPath = c.encryptPath ∧ w.decryptPath = c.decryptPath ∧
      w.authPath = c.authPath := by
  have key : ∀ (r : Ret (String × Option GoError)) (name : String),
      (match r.val with
        | none => none
        | some (_, some err) => some (c, some (GoError.errorf (name ++ err.Error)))
        | some (token, none) => some (c.SetToken token, none)) = some (w, e) →
      w.encryptPath = c.encryptPath ∧ w.decryptPath = c.decryptPath ∧
        w.authPath = c.authPath := by
    intro r name hr
    rcases hv : r.val with _ | ⟨t, _ | err⟩
    · simp [hv] at hr
    · simp only [hv, Option.some.injEq, Prod.mk.injEq] at hr
      rw [← hr.1]
      exact ⟨rfl, rfl, rfl⟩
    · simp only [hv, Option.some.injEq, Prod.mk.injEq] at hr
      rw [← hr.1]
      exact ⟨rfl, rfl, rfl⟩
  unfold getInitialToken at h
  split_ifs at h
  · exact key _ _ h
  · exact key _ _ h
  · exact key _ _ h
  · simp only [Option.some.injEq, Prod.mk.injEq] at h
    rw [← h.1]
    exact ⟨rfl, rfl, rfl⟩

theorem newClientWrapper_paths (v : VaultAPI) (config : EnvelopeConfig) (w : clientWrapper)
    (h : (newClientWrapper v config).val = some (some w, none)) (cl : Client) :
    w.encryptPath = (initWrapper cl config).encryptPath ∧
    w.decryptPath = (initWrapper cl config).decryptPath ∧
    w.authPath = (initWrapper cl config).authPath := by
  unfold newClientWrapper at h
  cases hc : newVaultClient v config with
  | error err => simp [hc] at h
  | ok client =>
    simp only [hc] at h
    split_ifs at h
    · simp only [Option.some.injEq, Prod.mk.injEq, and_true] at h
      rw [← h]
      exact ⟨rfl, rfl, rfl⟩
    · rcases hv : (getInitialToken v (initWrapper client config) config).val
        with _ | ⟨w2, _ | err⟩
      · simp [hv] at h
      · simp only [hv, Option.some.injEq, Prod.mk.injEq, and_true] at h
        have hp := getInitialToken_paths v _ w2 config none hv
        rw [← h]
        exact ⟨hp.1, hp.2.1, hp.2.2⟩
      · simp [hv] at h

theorem encryptLocked_calls (v : VaultAPI) (c : clientWrapper) (k x : String) :
    (encryptLocked v c k x).calls =
      [Call.RawRequest (postRequest c (Join [c.encryptPath, k])
        (.stringMap [("plaintext", x)]))] := by
  simp [encryptLocked, request, SetJSONBody]

theorem decryptLocked_calls (v : VaultAPI) (c : clientWrapper) (k x : String) :
    (decryptLocked v c k x).calls =
      [Call.RawRequest (postRequest c (Join [c.decryptPath, k])
        (.stringMap [("ciphertext", x)]))] := by
  simp [decryptLocked, request, SetJSONBody]

/-! ## Slash variants of the configured paths -/

theorem initWrapper_transit (cl : Client) (config : EnvelopeConfig) (t : String)
    (ht : t ≠ "") :
    (initWrapper cl { config with TransitPath := t }).encryptPath = Join ["v1", t, "encrypt"] ∧
    (initWrapper cl { config with TransitPath := t }).decryptPath = Join ["v1", t, "decrypt"] := by
  simp [initWrapper, ht]

theorem initWrapper_transit_variant (cl cl2 : Client) (config : EnvelopeConfig)
    (t t2 : String) (ht : t ≠ "")
    (h : t2 = "/" ++ t ∨ t2 = t ++ "/" ∨ t2 = "/" ++ t ++ "/") :
    (initWrapper cl2 { config with TransitPath := t2 }).encryptPath =
      (initWrapper cl { config with TransitPath := t }).encryptPath ∧
    (initWrapper cl2 { config with TransitPath := t2 }).decryptPath =
      (initWrapper cl { config with TransitPath := t }).decryptPath := by
  have ht2 : t2 ≠ "" := by
    intro h0
    have hl : t2.length = 0 := (length_eq_zero_iff t2).mpr h0
    rcases h with h | h | h <;> rw [h] at hl <;>
      simp only [String.length_append, Nat.add_eq_zero] at hl
    · exact ht ((length_eq_zero_iff t).mp hl.2)
    · exact ht ((length_eq_zero_iff t).mp hl.1)
    · exact ht ((length_eq_zero_iff t).mp hl.1.2)
  rw [(initWrapper_transit cl2 config t2 ht2).1, (initWrapper_transit cl2 config t2 ht2).2,
    (initWrapper_transit cl config t ht).1, (initWrapper_transit cl config t ht).2]
  rcases h with h | h | h <;> rw [h]
  · exact ⟨(Join_v1_slashes t _).1, (Join_v1_slashes t _).1⟩
  · exact ⟨(Join_v1_slashes t _).2.1, (Join_v1_slashes t _).2.1⟩
  · exact ⟨(Join_v1_slashes t _).2.2, (Join_v1_slashes t _).2.2⟩

/-- The request paths of Encrypt and Decrypt depend on the wrapper only through its encrypt
and decrypt path. -/
theorem targets_of_paths (v : VaultAPI) (w w2 : clientWrapper)
    (he : w2.encryptPath = w.encryptPath) (hd : w2.decryptPath = w.decryptPath)
    (k x : String) :
    (encryptLocked v w2 k x).calls.map Call.target =
      (encryptLocked v w k x).calls.map Call.target ∧
    (decryptLocked v w2 k x).calls.map Call.target =
      (decryptLocked v w k x).calls.map Call.target := by
  simp [encryptLocked_calls, decryptLocked_calls, Call.target, postRequest, he, hd]

/-- The slash variants of a non-empty transit path give every client the same encrypt and
decrypt path, and an empty transit path gives the paths of "transit". -/
theorem transitPath_variants (v : VaultAPI) (config : EnvelopeConfig) (t : String)
    (ht : t ≠ "") :
    (∀ t2, t2 = "/" ++ t ∨ t2 = t ++ "/" ∨ t2 = "/" ++ t ++ "/" →
      (∀ cl cl2, (initWrapper cl2 { config with TransitPath := t2 }).encryptPath =
          (initWrapper cl { config with TransitPath := t }).encryptPath ∧
        (initWrapper cl2 { config with TransitPath := t2 }).decryptPath =
          (initWrapper cl { config with TransitPath := t }).decryptPath) ∧
      (∀ w w2, (newClientWrapper v { config with TransitPath := t }).val = some (some w, none) →
        (newClientWrapper v { config with TransitPath := t2 }).val = some (some w2, none) →
        w2.encryptPath = w.encryptPath ∧ w2.decryptPath = w.decryptPath ∧
        ∀ k x, (encryptLocked v w2 k x).calls.map Call.target =
            (encryptLocked v w k x).calls.map Call.target ∧
          (decryptLocked v w2 k x).calls.map Call.target =
            (decryptLocked v w k x).calls.map Call.target)) ∧
    (∀ w w2, (newClientWrapper v { config with TransitPath := "" }).val = some (some w, none) →
      (newClientWrapper v { config with TransitPath := "transit" }).val =
        some (some w2, none) →
      w2.encryptPath = w.encryptPath ∧ w2.decryptPath = w.decryptPath ∧
      ∀ k x, (encryptLocked v w2 k x).calls.map Call.target =
          (encryptLocked v w k x).calls.map Call.target ∧
        (decryptLocked v w2 k x).calls.map Call.target =
          (decryptLocked v w k x).calls.map Call.target) := by
  refine ⟨?_, ?_⟩
  · intro t2 h2
    refine ⟨fun cl cl2 => initWrapper_transit_variant cl cl2 config t t2 ht h2, ?_⟩
    intro w w2 hw hw2
    have p := newClientWrapper_paths v _ w hw w.client
    have p2 := newClientWrapper_paths v _ w2 hw2 w.client
    have e := initWrapper_transit_variant w.client w.client config t t2 ht h2
    have he : w2.encryptPath = w.encryptPath := by rw [p2.1, p.1, e.1]
    have hd : w2.decryptPath = w.decryptPath := by rw [p2.2.1, p.2.1, e.2]
    exact ⟨he, hd, fun k x => targets_of_paths v w w2 he hd k x⟩
  · intro w w2 hw hw2
    have p := newClientWrapper_paths v _ w hw w.client
    have p2 := newClientWrapper_paths v _ w2 hw2 w.client
    have he : w2.encryptPath = w.encryptPath := by
      rw [p2.1, p.1]
      simp [initWrapper, defaultTransitPath]
    have hd : w2.decryptPath = w.decryptPath := by
      rw [p2.2.1, p.2.1]
      simp [initWrapper, defaultTransitPath]
    exact ⟨he, hd, fun k x => targets_of_paths v w w2 he hd k x⟩

/-- C6: for every non-empty transit path name t without a leading or trailing slash, the
configurations with TransitPath t, "/"+t, t+"/" and "/"+t+"/" give the client the identical
encryptPath and decryptPath, and so the identical request path for Encrypt and for Decrypt
of every key name; an empty TransitPath gives the paths of "transit"; and the joins of
"transit", "/transit/" and "transit/" with "encrypt" (or "/encrypt") and "k", made after
the element "v1" as the client makes them, all yield the identical path. -/
theorem transitPath_slash_variants (v : VaultAPI) (config : EnvelopeConfig) (t : String)
    (ht : t ≠ "") (_hlead : t.data.head? ≠ some '/') (_htrail : t.data.getLast? ≠ some '/') :
    (∀ t2, t2 = "/" ++ t ∨ t2 = t ++ "/" ∨ t2 = "/" ++ t ++ "/" →
      (∀ cl cl2, (initWrapper cl2 { config with TransitPath := t2 }).encryptPath =
          (initWrapper cl { config with TransitPath := t }).encryptPath ∧
        (initWrapper cl2 { config with TransitPath := t2 }).decryptPath =
          (initWrapper cl { config with TransitPath := t }).decryptPath) ∧
      (∀ w w2, (newClientWrapper v { config with TransitPath := t }).val = some (some w, none) →
        (newClientWrapper v { config with TransitPath := t2 }).val = some (some w2, none) →
        w2.encryptPath = w.encryptPath ∧ w2.decryptPath = w.decryptPath ∧
        ∀ k x, (encryptLocked v w2 k x).calls.map Call.target =
            (encryptLocked v w k x).calls.map Call.target ∧
          (decryptLocked v w2 k x).calls.map Call.target =
            (decryptLocked v w k x).calls.map Call.target)) ∧
    (∀ w w2, (newClientWrapper v { config with TransitPath := "" }).val = some (some w, none) →
      (newClientWrapper v { config with TransitPath := "transit" }).val =
        some (some w2, none) →
      w2.encryptPath = w.encryptPath ∧ w2.decryptPath = w.decryptPath ∧
      ∀ k x, (encryptLocked v w2 k x).calls.map Call.target =
          (encryptLocked v w k x).calls.map Call.target ∧
        (decryptLocked v w2 k x).calls.map Call.target =
          (decryptLocked v w k x).calls.map Call.target) ∧
    Join [Join ["v1", "transit", "encrypt"], "k"] = "v1/transit/encrypt/k" ∧
    Join [Join ["v1", "/transit/", "encrypt"], "k"] = "v1/transit/encrypt/k" ∧
    Join [Join ["v1", "transit/", "/encrypt"], "k"] = "v1/transit/encrypt/k" ∧
    Join ["v1", "transit", "encrypt", "k"] = "v1/transit/encrypt/k" ∧
    Join ["v1", "/transit/", "encrypt", "k"] = "v1/transit/encrypt/k" ∧
    Join ["v1", "transit/", "/encrypt", "k"] = "v1/transit/encrypt/k" :=
  ⟨(transitPath_variants v config t ht).1, (transitPath_variants v config t ht).2,
    by decide, by decide, by decide, by decide, by decide, by decide⟩

/-- Instance of C6: the transit paths "transit" and "/transit/" with a static token give
clients with the same paths. -/
theorem transitPath_slash_variants_witness :
    ("transit" : String) ≠ "" ∧ "transit".data.head? ≠ some '/' ∧
    "transit".data.getLast? ≠ some '/' ∧
    ∃ w w2,
      (newClientWrapper demoVault { tokenAndCertConfig with TransitPath := "transit" }).val =
        some (some w, none) ∧
      (newClientWrapper demoVault { tokenAndCertConfig with TransitPath := "/transit/" }).val =
        some (some w2, none) ∧
      w2.encryptPath = w.encryptPath ∧ w2.decryptPath = w.decryptPath :=
  ⟨by decide, by decide, by decide, _, _, rfl, rfl,
    (((transitPath_slash_variants demoVault tokenAndCertConfig "transit" (by decide)
      (by decide) (by decide)).1 "/transit/" (Or.inr (Or.inr rfl))).2 _ _ rfl rfl).1,
    (((transitPath_slash_variants demoVault tokenAndCertConfig "transit" (by decide)
      (by decide) (by decide)).1 "/transit/" (Or.inr (Or.inr rfl))).2 _ _ rfl rfl).2.1⟩

/-- C7: a leading slash of AuthPath is kept: with "/auth" the wrapper holds the authPath
"/auth" and the logins go to "//auth/cert/login" and "//auth/approle/login", while "auth"
and "auth/" give "auth", "/auth/cert/login" and "/auth/approle/login". -/
theorem authPath_keeps_leading_slash :
    (initWrapper { address := "", token := "" } { emptyConfig with AuthPath := "auth" }).authPath
      = "auth" ∧
    (initWrapper { address := "", token := "" } { emptyConfig with AuthPath := "auth/" }).authPath
      = "auth" ∧
    (initWrapper { address := "", token := "" } { emptyConfig with AuthPath := "/auth" }).authPath
      = "/auth" ∧
    (initWrapper { address := "", token := "" } { emptyConfig with AuthPath := "/auth/" }).authPath
      = "/auth" ∧
    (newClientWrapper demoVault { twoSetsConfig with AuthPath := "auth" }).calls =
      [Call.Write { address := "", token := "" } "/auth/cert/login" none] ∧
    (newClientWrapper demoVault { twoSetsConfig with AuthPath := "/auth" }).calls =
      [Call.Write { address := "", token := "" } "//auth/cert/login" none] ∧
    (appRoleToken demoVault
      (initWrapper { address := "", token := "" } { emptyConfig with AuthPath := "auth" })
      emptyConfig).calls.map Call.target = ["/auth/approle/login"] ∧
    (appRoleToken demoVault
      (initWrapper { address := "", token := "" } { emptyConfig with AuthPath := "/auth" })
      emptyConfig).calls.map Call.target = ["//auth/approle/login"] := by
  decide

/-! ## path.Clean: one element at a time -/

theorem atBoundary_cases (tail : List Char) (h : atBoundary tail = true) :
    tail = [] ∨ ∃ t, tail = '/' :: t := by
  cases tail with
  | nil => exact Or.inl rfl
  | cons a t =>
    right
    simp [atBoundary] at h
    exact ⟨t, by rw [h]⟩

theorem cleanLoop_mode (rooted : Bool) (tail out : List Char) (dd : Nat)
    (h : atBoundary tail = true) :
    cleanLoop rooted true tail out dd = cleanLoop rooted false tail out dd := by
  rcases atBoundary_cases tail h with h | ⟨t, h⟩
  · subst h
    rw [cleanLoop_nil, cleanLoop_nil]
  · subst h
    rw [cleanLoop_slash, cleanLoop_slash]

theorem cleanLoop_copy_all (rooted : Bool) (u : List Char) :
    ∀ (tail out : List Char) (dd : Nat), (∀ c ∈ u, c ≠ '/') → atBoundary tail = true →
      cleanLoop rooted true (u ++ tail) out dd = cleanLoop rooted false tail (out ++ u) dd := by
  induction u with
  | nil =>
    intro tail out dd _ ht
    simpa using cleanLoop_mode rooted tail out dd ht
  | cons c u ih =>
    intro tail out dd hu ht
    have hc : c ≠ '/' := hu c (List.mem_cons_self _ _)
    rw [List.cons_append, cleanLoop_copy _ _ _ _ _ hc,
      ih tail (out ++ [c]) dd (fun x hx => hu x (List.mem_cons_of_mem _ hx)) ht]
    simp

theorem cleanLoop_dot (rooted : Bool) (tail out : List Char) (dd : Nat)
    (h : atBoundary tail = true) :
    cleanLoop rooted false ('.' :: tail) out dd = cleanLoop rooted false tail out dd := by
  rw [cleanLoop_false_cons]
  simp [h]

theorem cleanLoop_dotdot (tail out : List Char) (dd : Nat) (h : atBoundary tail = true) :
    cleanLoop false false ('.' :: '.' :: tail) out dd =
      if out.length > dd then
        cleanLoop false false tail (out.take (backtrackLoop out dd (out.length - 1))) dd
      else
        cleanLoop false false tail (pushSegment out ['.', '.'])
          (pushSegment out ['.', '.']).length := by
  rw [cleanLoop_false_cons]
  have h2 : atBoundary ('.' :: tail) = false := by simp [atBoundary]
  simp only [show ¬('.' = '/') by decide, if_false, h2, Bool.false_eq_true, and_false,
    List.head?_cons, List.tail_cons, h, and_self, if_true, Bool.not_false]
  by_cases ho : out = []
  · subst ho
    simp [pushSegment]
  · have hl : out.length > 0 := List.length_pos.mpr ho
    simp [pushSegment, ho, hl]

theorem cleanLoop_ordinary (s tail out : List Char) (dd : Nat) (hs : OrdinarySegment s)
    (h : atBoundary tail = true) :
    cleanLoop false false (s ++ tail) out dd =
      cleanLoop false false tail (pushSegment out s) dd := by
  obtain ⟨hne, hsl, hdot, hdd⟩ := hs
  match s, hne with
  | c :: s1, _ =>
    have hc : c ≠ '/' := fun e => hsl (by rw [e]; exact List.mem_cons_self _ _)
    have hs1 : ∀ x ∈ s1, x ≠ '/' := fun x hx e =>
      hsl (by rw [← e]; exact List.mem_cons_of_mem _ hx)
    have c2 : ¬(c = '.' ∧ atBoundary (s1 ++ tail) = true) := by
      rintro ⟨e, hb⟩
      cases s1 with
      | nil => exact hdot (by rw [e])
      | cons d s2 =>
        simp [atBoundary] at hb
        exact hs1 d (List.mem_cons_self _ _) hb
    have c3 : ¬(c = '.' ∧ (s1 ++ tail).head? = some '.' ∧
        atBoundary (s1 ++ tail).tail = true) := by
      rintro ⟨e, hh, hb⟩
      match s1, hs1, hh, hb with
      | [], _, hh, _ =>
        rcases atBoundary_cases tail h with h0 | ⟨t, h0⟩ <;> subst h0 <;> simp at hh
      | [d], _, hh, _ =>
        simp at hh
        exact hdd (by rw [e, hh])
      | d :: f :: s3, hs1, _, hb =>
        simp [atBoundary] at hb
        exact hs1 f (by simp) hb
    rw [List.cons_append, cleanLoop_false_cons, if_neg hc, if_neg c2, if_neg c3,
      cleanLoop_copy_all false s1 tail _ dd hs1 h]
    by_cases ho : out = []
    · subst ho
      simp [pushSegment]
    · simp [pushSegment, ho]

/-! ## path.Clean: backtracking over the last element -/

theorem getElem?_ne_slash (s : List Char) (hs : ∀ c ∈ s, c ≠ '/') (i : Nat) :
    s[i]? ≠ some '/' := by
  intro h
  exact hs '/' (List.getElem?_mem h) rfl

theorem getElem?_after (out0 t : List Char) (j : Nat) :
    (out0 ++ t)[out0.length + j]? = t[j]? := by
  rw [List.getElem?_append_right (Nat.le_add_right _ _), Nat.add_sub_cancel_left]

theorem backtrackLoop_zero (s : List Char) (hs : ∀ c ∈ s, c ≠ '/') :
    ∀ w, backtrackLoop s 0 w = 0 := by
  intro w
  induction w with
  | zero => rfl
  | succ w ih =>
    rw [backtrackLoop]
    have h := getElem?_ne_slash s hs (w + 1)
    simp only [List.get?_eq_getElem?]
    simp [h, ih]

theorem backtrackLoop_seg (out0 s : List Char) (dd : Nat) (hdd : dd ≤ out0.length)
    (h0 : out0 ≠ []) (hs : ∀ c ∈ s, c ≠ '/') :
    ∀ j, backtrackLoop (out0 ++ '/' :: s) dd (out0.length + j) = out0.length := by
  intro j
  induction j with
  | zero =>
    obtain ⟨w, hw⟩ : ∃ w, out0.length = w + 1 :=
      Nat.exists_eq_succ_of_ne_zero (fun h => h0 (List.length_eq_zero.mp h))
    have hg : (out0 ++ '/' :: s)[w + 1]? = some '/' := by
      have := getElem?_after out0 ('/' :: s) 0
      rw [Nat.add_zero, hw] at this
      rw [this]
      simp
    rw [Nat.add_zero, hw, backtrackLoop]
    simp only [List.get?_eq_getElem?, hg]
    simp
  | succ j ih =>
    have hg : (out0 ++ '/' :: s)[out0.length + j + 1]? ≠ some '/' := by
      have := getElem?_after out0 ('/' :: s) (j + 1)
      rw [← Nat.add_assoc] at this
      rw [this, List.getElem?_cons_succ]
      exact getElem?_ne_slash s hs j
    rw [← Nat.add_assoc, backtrackLoop]
    have hgt : out0.length + j + 1 > dd := by omega
    simp only [List.get?_eq_getElem?]
    simp [hg, hgt, ih]

theorem backtrack_pushSegment (out0 s : List Char) (dd : Nat) (hdd : dd ≤ out0.length)
    (hs : ∀ c ∈ s, c ≠ '/') :
    (pushSegment out0 s).take
      (backtrackLoop (pushSegment out0 s) dd ((pushSegment out0 s).length - 1)) = out0 := by
  by_cases h0 : out0 = []
  · subst h0
    have : dd = 0 := Nat.le_zero.mp hdd
    subst this
    simp [pushSegment, backtrackLoop_zero s hs]
  · have hl : (pushSegment out0 s).length - 1 = out0.length + s.length := by
      simp [pushSegment, h0]
    rw [hl]
    simp only [pushSegment, h0, if_false]
    rw [backtrackLoop_seg out0 s dd hdd h0 hs]
    simp

/-! ## path.Clean: the states of the loop and cleaned paths -/

theorem length_pushSegment_ge (out s : List Char) : out.length ≤ (pushSegment out s).length := by
  by_cases h : out = []
  · subst h
    simp
  · simp only [pushSegment, h, if_false, List.length_append, List.length_cons]
    omega

theorem length_pushSegment_gt (out s : List Char) (hs : s ≠ []) :
    out.length < (pushSegment out s).length := by
  have hl : 0 < s.length := List.length_pos.mpr hs
  by_cases h : out = []
  · subst h
    simpa [pushSegment] using hl
  · simp only [pushSegment, h, if_false, List.length_append, List.length_cons]
    omega

theorem CleanState_le (out : List Char) (dd : Nat) (h : CleanState out dd) :
    dd ≤ out.length := by
  induction h with
  | nil => exact Nat.le_refl _
  | dots out dd _ _ _ => exact Nat.le_refl _
  | seg out dd s _ _ ih => exact Nat.le_trans ih (length_pushSegment_ge out s)

theorem head?_pushSegment (out s : List Char) (c : Char) (t : List Char) (hs : s = c :: t)
    (hc : c ≠ '/') (ho : out.head? ≠ some '/') : (pushSegment out s).head? ≠ some '/' := by
  by_cases h : out = []
  · subst h
    subst hs
    simpa [pushSegment] using hc
  · cases out with
    | nil => exact absurd rfl h
    | cons a out =>
      simpa [pushSegment] using ho

theorem CleanState_head (out : List Char) (dd : Nat) (h : CleanState out dd) :
    out.head? ≠ some '/' := by
  induction h with
  | nil => simp
  | dots out dd _ _ ih => exact head?_pushSegment out _ '.' ['.'] rfl (by decide) ih
  | seg out dd s _ hs ih =>
    obtain ⟨hne, hsl, _, _⟩ := hs
    match s, hne, hsl with
    | c :: t, _, hsl =>
      exact head?_pushSegment out _ c t rfl
        (fun e => hsl (by rw [e]; exact List.mem_cons_self _ _)) ih

theorem CleanState_dotdot (out : List Char) (dd : Nat) (tail : List Char)
    (h : CleanState out dd) (ht : atBoundary tail = true) :
    ∃ out2 dd2, CleanState out2 dd2 ∧
      cleanLoop false false ('.' :: '.' :: tail) out dd = cleanLoop false false tail out2 dd2 := by
  rw [cleanLoop_dotdot tail out dd ht]
  cases h with
  | nil =>
    exact ⟨_, _, CleanState.dots [] 0 CleanState.nil rfl, by simp⟩
  | dots out0 dd0 h0 hlen =>
    refine ⟨_, _, CleanState.dots _ _ (CleanState.dots out0 dd0 h0 hlen) rfl, ?_⟩
    rw [if_neg (Nat.lt_irrefl _)]
  | seg out0 dd0 s h0 hs =>
    have hgt : (pushSegment out0 s).length > dd :=
      Nat.lt_of_le_of_lt (CleanState_le out0 dd h0) (length_pushSegment_gt out0 s hs.1)
    refine ⟨out0, dd, h0, ?_⟩
    rw [if_pos hgt, backtrack_pushSegment out0 s dd (CleanState_le out0 dd h0)
      (fun c hc e => hs.2.1 (by rw [← e]; exact hc))]

theorem segment_split (xs : List Char) :
    ∃ seg rest, xs = seg ++ rest ∧ (∀ c ∈ seg, c ≠ '/') ∧ atBoundary rest = true ∧
      rest.length ≤ xs.length := by
  induction xs with
  | nil => exact ⟨[], [], rfl, by simp, rfl, Nat.le_refl _⟩
  | cons c xs ih =>
    by_cases hc : c = '/'
    · exact ⟨[], c :: xs, rfl, by simp, by simp [atBoundary, hc], Nat.le_refl _⟩
    · obtain ⟨seg, rest, he, hs, hb, hl⟩ := ih
      refine ⟨c :: seg, rest, by rw [he]; rfl, ?_, hb, ?_⟩
      · intro x hx
        rcases List.mem_cons.mp hx with h | h
        · rw [h]
          exact hc
        · exact hs x h
      · simp only [List.length_cons]
        omega

theorem atBoundary_append (rest tail : List Char) (hr : atBoundary rest = true)
    (ht : atBoundary tail = true) : atBoundary (rest ++ tail) = true := by
  rcases atBoundary_cases rest hr with h | ⟨t, h⟩
  · subst h
    simpa using ht
  · subst h
    simp [atBoundary]

/-- On a relative path the loop of path.Clean goes from state to state. -/
theorem CleanState_run :
    ∀ (n : Nat) (xs : List Char), xs.length ≤ n → ∀ (out : List Char) (dd : Nat),
      CleanState out dd → ∀ tail, atBoundary tail = true →
      ∃ out2 dd2, CleanState out2 dd2 ∧
        cleanLoop false false (xs ++ tail) out dd = cleanLoop false false tail out2 dd2 := by
  intro n
  induction n with
  | zero =>
    intro xs hx out dd h tail _
    have : xs = [] := List.length_eq_zero.mp (Nat.le_zero.mp hx)
    subst this
    exact ⟨out, dd, h, rfl⟩
  | succ n ih =>
    intro xs hx out dd h tail ht
    match xs, hx with
    | [], _ => exact ⟨out, dd, h, rfl⟩
    | c :: xs1, hx =>
      have h1 : xs1.length ≤ n := by simpa using hx
      by_cases hc : c = '/'
      · subst hc
        rw [List.cons_append, cleanLoop_slash]
        exact ih xs1 h1 out dd h tail ht
      · obtain ⟨seg1, rest, he, hs, hb, hl⟩ := segment_split xs1
        have hrest : rest.length ≤ n := Nat.le_trans hl h1
        have hbt := atBoundary_append rest tail hb ht
        have hsplit : c :: xs1 ++ tail = (c :: seg1) ++ (rest ++ tail) := by
          rw [he]
          simp
        rw [hsplit]
        by_cases hd : c :: seg1 = ['.']
        · rw [hd, List.singleton_append, cleanLoop_dot false _ out dd hbt]
          exact ih rest hrest out dd h tail ht
        · by_cases hdd : c :: seg1 = ['.', '.']
          · rw [hdd]
            obtain ⟨out2, dd2, h2, e2⟩ := CleanState_dotdot out dd (rest ++ tail) h hbt
            obtain ⟨out3, dd3, h3, e3⟩ := ih rest hrest out2 dd2 h2 tail ht
            refine ⟨out3, dd3, h3, ?_⟩
            rw [← e3, ← e2]
            rfl
          · have hord : OrdinarySegment (c :: seg1) := by
              refine ⟨List.cons_ne_nil _ _, ?_, hd, hdd⟩
              intro hm
              rcases List.mem_cons.mp hm with e | e
              · exact hc e.symm
              · exact hs _ e rfl
            rw [cleanLoop_ordinary (c :: seg1) (rest ++ tail) out dd hord hbt]
            exact ih rest hrest _ dd (CleanState.seg out dd _ h hord) tail ht

/-- Cleaning a cleaned relative path again rebuilds the state it was written from. -/
theorem CleanState_replay (out : List Char) (dd : Nat) (h : CleanState out dd) :
    ∀ tail, atBoundary tail = true →
      cleanLoop false false (out ++ tail) [] 0 = cleanLoop false false tail out dd := by
  induction h with
  | nil =>
    intro tail _
    rfl
  | dots out0 dd0 h0 hlen ih =>
    intro tail ht
    by_cases ho : out0 = []
    · subst ho
      simp only [List.length_nil] at hlen
      subst hlen
      have e := cleanLoop_dotdot tail [] 0 ht
      simp only [List.length_nil, Nat.lt_irrefl, if_false] at e
      simpa [pushSegment] using e
    · have e := cleanLoop_dotdot tail out0 dd0 ht
      rw [if_neg (by omega)] at e
      have hb : atBoundary ('/' :: '.' :: '.' :: tail) = true := by simp [atBoundary]
      have e2 := ih ('/' :: '.' :: '.' :: tail) hb
      rw [cleanLoop_slash, e] at e2
      rw [← e2]
      simp [pushSegment, ho]
  | seg out0 dd0 s h0 hs ih =>
    intro tail ht
    by_cases ho : out0 = []
    · subst ho
      have hz : dd0 = 0 := Nat.le_zero.mp (CleanState_le [] dd0 h0)
      subst hz
      have e := cleanLoop_ordinary s tail [] 0 hs ht
      simpa [pushSegment] using e
    · have e := cleanLoop_ordinary s tail out0 dd0 hs ht
      have hb : atBoundary ('/' :: (s ++ tail)) = true := by simp [atBoundary]
      have e2 := ih ('/' :: (s ++ tail)) hb
      rw [cleanLoop_slash, e] at e2
      rw [← e2]
      simp [pushSegment, ho]

theorem Join_v1_push (x s : String) (hs : OrdinarySegment s.data) :
    ∃ out dd, CleanState out dd ∧ (Join ["v1", x, s]).data = pushSegment out s.data := by
  have hv1 : CleanState ['v', '1'] 0 :=
    CleanState.seg [] 0 ['v', '1'] CleanState.nil (by decide)
  have hb : atBoundary ('/' :: s.data) = true := by simp [atBoundary]
  obtain ⟨out2, dd2, h2, e2⟩ := CleanState_run x.data.length x.data (Nat.le_refl _)
    ['v', '1'] 0 hv1 ('/' :: s.data) hb
  have e3 := cleanLoop_ordinary s.data [] out2 dd2 hs rfl
  rw [List.append_nil, cleanLoop_nil] at e3
  rw [cleanLoop_slash, e3] at e2
  have hlen : ¬((pushSegment out2 s.data).length = 0) := by
    have := length_pushSegment_gt out2 s.data hs.1
    omega
  refine ⟨out2, dd2, h2, ?_⟩
  rw [Join_v1, e2, if_neg hlen]

theorem Join_v1_state (x s : String) (hs : OrdinarySegment s.data) :
    ∃ dd, CleanState (Join ["v1", x, s]).data dd ∧ (Join ["v1", x, s]).data ≠ [] := by
  obtain ⟨out, dd, h, e⟩ := Join_v1_push x s hs
  refine ⟨dd, ?_, ?_⟩
  · rw [e]
    exact CleanState.seg out dd s.data h hs
  · rw [e]
    intro h0
    have := length_pushSegment_gt out s.data hs.1
    rw [h0] at this
    simp at this

theorem pushSegment_suffix (out s : List Char) : ∃ pre, pushSegment out s = pre ++ s := by
  by_cases h : out = []
  · exact ⟨[], by simp [pushSegment, h]⟩
  · exact ⟨out ++ ['/'], by simp [pushSegment, h]⟩

theorem Join_v1_encrypt_ne_decrypt (x y : String) :
    Join ["v1", x, "encrypt"] ≠ Join ["v1", y, "decrypt"] := by
  intro h
  obtain ⟨o1, _, _, e1⟩ := Join_v1_push x "encrypt" (by decide)
  obtain ⟨o2, _, _, e2⟩ := Join_v1_push y "decrypt" (by decide)
  obtain ⟨p1, hp1⟩ := pushSegment_suffix o1 "encrypt".data
  obtain ⟨p2, hp2⟩ := pushSegment_suffix o2 "decrypt".data
  rw [h, e2, hp2] at e1
  rw [hp1] at e1
  have := (List.append_inj' e1 (by decide)).2
  exact absurd this (by decide)

theorem last_slash_split (a b k k2 : List Char) (hk : '/' ∉ k) (hk2 : '/' ∉ k2)
    (h : a ++ '/' :: k = b ++ '/' :: k2) : a = b ∧ k = k2 := by
  rcases List.append_eq_append_iff.mp h with ⟨m, hb, hm⟩ | ⟨m, ha, hm⟩
  · cases m with
    | nil =>
      simp only [List.nil_append, List.cons.injEq, true_and] at hm
      exact ⟨by simpa using hb.symm, hm⟩
    | cons c m =>
      simp only [List.cons_append, List.cons.injEq] at hm
      exact absurd (by rw [hm.2]; simp) hk
  · cases m with
    | nil =>
      simp only [List.nil_append, List.cons.injEq, true_and] at hm
      exact ⟨by simpa using ha, hm.symm⟩
    | cons c m =>
      simp only [List.cons_append, List.cons.injEq] at hm
      exact absurd (by rw [hm.2]; simp) hk2

/-- Joining an ordinary element to a cleaned relative path appends it after a slash. -/
theorem Join_ordinary (E k : String) (dd : Nat) (hE : CleanState E.data dd)
    (hne : E.data ≠ []) (hk : OrdinarySegment k.data) :
    Join [E, k] = E ++ "/" ++ k := by
  have hE0 : E ≠ "" := fun h => hne (by rw [h])
  have hdata : (E ++ "/" ++ k).data = E.data ++ '/' :: k.data := by
    simp [String.data_append]
  have hb : atBoundary ('/' :: k.data) = true := by simp [atBoundary]
  have e1 := CleanState_replay E.data dd hE ('/' :: k.data) hb
  have e2 := cleanLoop_ordinary k.data [] E.data dd hk rfl
  rw [List.append_nil, cleanLoop_nil] at e2
  rw [cleanLoop_slash, e2] at e1
  have hpush : pushSegment E.data k.data = E.data ++ '/' :: k.data := by
    simp [pushSegment, hne]
  rw [hpush] at e1
  have hhead : ¬((E.data ++ '/' :: k.data).head? = some '/') := by
    have := CleanState_head E.data dd hE
    cases hd : E.data with
    | nil => exact absurd hd hne
    | cons a t =>
      rw [hd] at this
      simpa using this
  have hclean : cleanChars (E.data ++ '/' :: k.data) = E.data ++ '/' :: k.data := by
    have hhead2 := CleanState_head E.data dd hE
    unfold cleanChars
    simp [hne, hhead, hhead2, e1]
  apply String.ext
  simp only [Join, stringsJoin, if_pos hE0, Clean, hdata, hclean]

/-! ## Request paths of Encrypt and Decrypt -/

theorem newClientWrapper_transit (v : VaultAPI) (config : EnvelopeConfig) (w : clientWrapper)
    (h : (newClientWrapper v config).val = some (some w, none)) :
    ∃ t, w.encryptPath = Join ["v1", t, "encrypt"] ∧
      w.decryptPath = Join ["v1", t, "decrypt"] := by
  have p := newClientWrapper_paths v config w h w.client
  exact ⟨_, p.1, p.2.1⟩

/-- Against C10 as stated: a key name with `..` takes the request of Encrypt to the decrypt
path, and an empty key name takes it to the encrypt path itself. -/
theorem encrypt_reaches_decrypt_path :
    (newClientWrapper demoVault tokenAndCertConfig).val = some (some (demoWrapper "tok"), none) ∧
    (encryptLocked demoVault (demoWrapper "tok") "../decrypt/key1" "hello").calls =
      [Call.RawRequest
        { Method := "POST"
          URLPath := "/v1/transit/decrypt/key1"
          ClientToken := "tok"
          Body := .stringMap [("plaintext", "hello")] }] ∧
    (decryptLocked demoVault (demoWrapper "tok") "key1" "abc").calls.map Call.target =
      ["/v1/transit/decrypt/key1"] ∧
    "/" ++ (demoWrapper "tok").encryptPath ++ "/" ++ "../decrypt/key1" ≠
      "/v1/transit/decrypt/key1" ∧
    (encryptLocked demoVault (demoWrapper "tok") "" "hello").calls.map Call.target =
      ["/v1/transit/encrypt"] ∧
    "/" ++ (demoWrapper "tok").encryptPath ++ "/" ++ "" ≠ "/v1/transit/encrypt" := by
  decide

/-- C10, amended: encryptLocked sends its single POST to "/" followed by the cleaned join
of encryptPath and the key name, with the body {"plaintext": plain}, and decryptLocked
likewise with decryptPath and {"ciphertext": cipher}; for a client built by
newClientWrapper and a key name that is one ordinary element this path is exactly
"/" + encryptPath + "/" + k, it lies under the encrypt path, and it is the path of no
Decrypt with such a key name. -/
theorem request_path_is_cleaned_join (v : VaultAPI) (c : clientWrapper) (k x : String) :
    (encryptLocked v c k x).calls =
      [Call.RawRequest
        { Method := "POST"
          URLPath := "/" ++ Join [c.encryptPath, k]
          ClientToken := c.client.token
          Body := .stringMap [("plaintext", x)] }] ∧
    (decryptLocked v c k x).calls =
      [Call.RawRequest
        { Method := "POST"
          URLPath := "/" ++ Join [c.decryptPath, k]
          ClientToken := c.client.token
          Body := .stringMap [("ciphertext", x)] }] ∧
    (∀ config w, (newClientWrapper v config).val = some (some w, none) →
      OrdinarySegment k.data →
      (encryptLocked v w k x).calls.map Call.target = ["/" ++ w.encryptPath ++ "/" ++ k] ∧
      (decryptLocked v w k x).calls.map Call.target = ["/" ++ w.decryptPath ++ "/" ++ k] ∧
      startsWith ("/" ++ w.encryptPath ++ "/" ++ k).data ("/" ++ w.encryptPath ++ "/").data
        = true ∧
      ∀ k2 : String, OrdinarySegment k2.data →
        "/" ++ w.encryptPath ++ "/" ++ k ≠ "/" ++ w.decryptPath ++ "/" ++ k2) := by
  refine ⟨encryptLocked_calls v c k x, decryptLocked_calls v c k x, ?_⟩
  intro config w hw hk
  obtain ⟨t, he, hd⟩ := newClientWrapper_transit v config w hw
  obtain ⟨dd1, s1, n1⟩ := Join_v1_state t "encrypt" (by decide)
  obtain ⟨dd2, s2, n2⟩ := Join_v1_state t "decrypt" (by decide)
  rw [← he] at s1 n1
  rw [← hd] at s2 n2
  have j1 := Join_ordinary w.encryptPath k dd1 s1 n1 hk
  have j2 := Join_ordinary w.decryptPath k dd2 s2 n2 hk
  refine ⟨?_, ?_, ?_, ?_⟩
  · rw [encryptLocked_calls]
    simp only [List.map, Call.target, postRequest, j1]
    simp [String.append_assoc]
  · rw [decryptLocked_calls]
    simp only [List.map, Call.target, postRequest, j2]
    simp [String.append_assoc]
  · simp only [String.data_append]
    exact startsWith_append _ _
  · intro k2 hk2 heq
    have hdat := congrArg String.data heq
    simp only [String.data_append, List.append_assoc] at hdat
    have hdat2 : w.encryptPath.data ++ '/' :: k.data = w.decryptPath.data ++ '/' :: k2.data := by
      have := List.append_cancel_left hdat
      simpa using this
    have hsp := last_slash_split _ _ _ _ hk.2.1 hk2.2.1 hdat2
    have : w.encryptPath = w.decryptPath := String.ext hsp.1
    rw [he, hd] at this
    exact Join_v1_encrypt_ne_decrypt t t this

/-- Instance of C10 as amended: the key name key1 on a client with the default paths. -/
theorem request_path_is_cleaned_join_witness :
    (newClientWrapper demoVault tokenAndCertConfig).val = some (some (demoWrapper "tok"), none) ∧
    OrdinarySegment "key1".data ∧
    (encryptLocked demoVault (demoWrapper "tok") "key1" "hello").calls.map Call.target =
      ["/" ++ (demoWrapper "tok").encryptPath ++ "/" ++ "key1"] :=
  ⟨by decide, by decide,
    ((request_path_is_cleaned_join demoVault (demoWrapper "tok") "key1" "hello").2.2
      tokenAndCertConfig (demoWrapper "tok") (by decide) (by decide)).1⟩

end Vault
